import Mathlib

/-!
Verification of the ika-paintboard backend core against its specification.

The definitions below are a shallow embedding of the TypeScript sources:
`src/paintboard.ts` (the `PaintBoardManager` revision backed by a
`SharedArrayBuffer` byte view), `src/index.ts` (the Bun HTTP/WebSocket server)
and `src/database.ts` (the `DBManager`). JavaScript `Map`s are modelled as
association lists with `Map.get` / `Map.set` semantics (set replaces the value
in place when the key exists, otherwise appends), byte buffers as `List Nat`
with writes truncated mod 256 as a `Uint8Array` does, and wall-clock
timestamps as `Int` (`Date.now()` values).
-/

namespace IkaPaintboard

/-- RGB color triple as decoded from the wire (`types.ts`, `Color`). -/
structure Color where
  r : Nat
  g : Nat
  b : Nat
deriving DecidableEq, Repr

/-- Result code `SUCCESS` (`types.ts`, enum `PaintResultCode`). -/
def SUCCESS : Nat := 0xef

/-- Result code `INVALID_TOKEN`. -/
def INVALID_TOKEN : Nat := 0xed

/-- Result code `COOLING`. -/
def COOLING : Nat := 0xee

/-- Result code `BAD_FORMAT`. -/
def BAD_FORMAT : Nat := 0xec

/-- Result code `NO_PERMISSION`. -/
def NO_PERMISSION : Nat := 0xeb

/-- Result code `SERVER_ERROR`. -/
def SERVER_ERROR : Nat := 0xea

/-- JavaScript `Map.get`: the binding of the first entry with the key. -/
def mapGet {α β : Type} [DecidableEq α] (m : List (α × β)) (k : α) : Option β :=
  (m.find? (fun p => p.1 = k)).map (·.2)

/-- JavaScript `Map.set`: replace the value in place when the key is present,
otherwise append the new binding. -/
def mapSet {α β : Type} [DecidableEq α] (m : List (α × β)) (k : α) (v : β) :
    List (α × β) :=
  if m.any (fun p => p.1 = k) then
    m.map (fun p => if p.1 = k then (k, v) else p)
  else m ++ [(k, v)]

/-- Array indexing as JavaScript does it: an out-of-range read yields a falsy
`undefined`, modelled by the default value. -/
def getByte (l : List Nat) (i : Nat) : Nat := (l[i]?).getD 0

/-- Boolean array indexing with the falsy default for out-of-range reads. -/
def getFlag (l : List Bool) (i : Nat) : Bool := (l[i]?).getD false

/-- State of a `PaintBoardManager` (`paintboard.ts`): board dimensions, the
`Uint8Array` view of the pixel `SharedArrayBuffer`, the token registry
(`Map<string, Token>`, here token string to uid), the paint cooldown delay, the
per-uid last paint time (`Map<number, number>`), and the dirty-pixel
coalescer (`dirtyFlags` array plus `dirtyList`). The `allowQuery` per-pixel
annotation is disabled, as in the server's construction of the manager. -/
structure PBState where
  width : Nat
  height : Nat
  pixelView : List Nat
  tokens : List (String × Nat)
  paintDelay : Int
  lastPaintTime : List (Nat × Int)
  dirtyFlags : List Bool
  dirtyList : List Nat
deriving DecidableEq, Repr

/-- Fresh manager state: `initializeBoard` fills the byte view with gray 170,
and all the maps and the dirty coalescer start empty (`paintboard.ts`,
constructor and `initializeBoard`). -/
def initialState (width height : Nat) (paintDelay : Int) : PBState :=
  { width := width
    height := height
    pixelView := List.replicate (width * height * 3) 170
    tokens := []
    paintDelay := paintDelay
    lastPaintTime := []
    dirtyFlags := List.replicate (width * height) false
    dirtyList := [] }

/-- `getBoardBuffer` (`paintboard.ts`): a copy of the byte view. -/
def getBoardBuffer (s : PBState) : List Nat := s.pixelView

/-- The three `Uint8Array` stores of `setPixel`: color bytes at offset `idx`,
truncated mod 256 as a `Uint8Array` store does. -/
def writeBytes (pv : List Nat) (idx : Nat) (c : Color) : List Nat :=
  ((pv.set idx (c.r % 256)).set (idx + 1) (c.g % 256)).set (idx + 2) (c.b % 256)

/-- `setPixel` (`paintboard.ts`): reject coordinates outside the board,
otherwise write the three color bytes at offset `(y*width+x)*3` (a
`Uint8Array` store truncates mod 256) and, when the pixel is not already
marked dirty, set its flag and push its index onto the dirty list. -/
def setPixel (s : PBState) (x y : Int) (c : Color) : PBState × Bool :=
  if x < 0 ∨ x ≥ (s.width : Int) ∨ y < 0 ∨ y ≥ (s.height : Int) then
    (s, false)
  else
    let xn := x.toNat
    let yn := y.toNat
    let idx := (yn * s.width + xn) * 3
    let pv := writeBytes s.pixelView idx c
    let pixelId := yn * s.width + xn
    if getFlag s.dirtyFlags pixelId then
      ({ s with pixelView := pv }, true)
    else
      ({ s with
          pixelView := pv
          dirtyFlags := s.dirtyFlags.set pixelId true
          dirtyList := s.dirtyList ++ [pixelId] }, true)

/-- One 0xFA broadcast record for pixel index `pixelId`, reading the current
color from the byte view (`flushUpdates` loop body, `paintboard.ts`). The
shifts `x >> 8` and `y >> 8` are division by 256 for the coordinate ranges in
use. -/
def record8 (s : PBState) (pixelId : Nat) : List Nat :=
  let y := pixelId / s.width
  let x := pixelId % s.width
  let base := (y * s.width + x) * 3
  [0xfa, x % 256, x / 256, y % 256, y / 256,
    getByte s.pixelView base, getByte s.pixelView (base + 1),
    getByte s.pixelView (base + 2)]

/-- `flushUpdates` (`paintboard.ts`) with a color-update listener attached, as
the server always wires one: emit one 0xFA record per entry of the dirty list
reading the colors from the current byte view, clear each entry's dirty flag,
and empty the dirty list. The emitted byte string is returned. -/
def flushUpdates (s : PBState) : PBState × List Nat :=
  if s.dirtyList.length > 0 then
    let flags := s.dirtyList.foldl (fun fs i => fs.set i false) s.dirtyFlags
    let out := s.dirtyList.flatMap (record8 s)
    ({ s with dirtyFlags := flags, dirtyList := [] }, out)
  else (s, [])

/-- Truthiness-aware cooldown test from `validateToken` (`paintboard.ts`): the
guard `lastPrint && now - lastPrint < this.paintDelay` is false when the entry
is absent or 0 (falsy). -/
def coolingCheck (entry : Option Int) (delay now : Int) : Bool :=
  match entry with
  | some t => decide (t ≠ 0 ∧ now - t < delay)
  | none => false

/-- `validateToken` (`paintboard.ts`): unknown token or uid mismatch give
`INVALID_TOKEN`; a live cooldown entry for the uid gives `COOLING`; otherwise
the last paint time of the uid is set to `now` and the result is `SUCCESS`. -/
def validateToken (s : PBState) (token : String) (uid : Nat) (now : Int) :
    PBState × Nat :=
  match mapGet s.tokens token with
  | none => (s, INVALID_TOKEN)
  | some boundUid =>
    if boundUid ≠ uid then (s, INVALID_TOKEN)
    else if coolingCheck (mapGet s.lastPaintTime uid) s.paintDelay now then
      (s, COOLING)
    else
      ({ s with lastPaintTime := mapSet s.lastPaintTime uid now }, SUCCESS)

/-- The 0xFE paint handling of the WebSocket message handler (`index.ts`):
check the uid ban set, then `validateToken`, then `setPixel`; a rejected
coordinate turns the result into `BAD_FORMAT`. The function is total: every
outcome is a result code and no exception escapes. -/
def paintAttempt (bannedUIDs : List Nat) (s : PBState) (token : String)
    (uid : Nat) (x y : Int) (c : Color) (now : Int) : PBState × Nat :=
  if uid ∈ bannedUIDs then (s, NO_PERMISSION)
  else if (validateToken s token uid now).2 = SUCCESS then
    if (setPixel (validateToken s token uid now).1 x y c).2 then
      ((setPixel (validateToken s token uid now).1 x y c).1, SUCCESS)
    else
      ((setPixel (validateToken s token uid now).1 x y c).1, BAD_FORMAT)
  else validateToken s token uid now

/-- Token rotation performed by `generateToken` after a successful paste
validation (`paintboard.ts`): delete every in-memory binding with this uid,
then insert the fresh `randomUUID` token. -/
def rotateToken (s : PBState) (uid : Nat) (fresh : String) : PBState :=
  { s with tokens := mapSet (s.tokens.filter (fun p => p.2 ≠ uid)) fresh uid }

/-- `DBManager.deleteTokensByUid` (`database.ts`): `DELETE FROM tokens WHERE
uid = ?`. -/
def dbDeleteTokensByUid (rows : List (String × Nat)) (uid : Nat) :
    List (String × Nat) :=
  rows.filter (fun p => p.2 ≠ uid)

/-- `DBManager.saveToken` (`database.ts`): in one transaction, delete the rows
holding this uid under a different token, then `INSERT OR REPLACE` the binding
(`token` is the primary key, so a row with the same token is replaced). -/
def dbSaveToken (rows : List (String × Nat)) (tok : String) (uid : Nat) :
    List (String × Nat) :=
  ((rows.filter (fun p => ¬(p.2 = uid ∧ p.1 ≠ tok))).filter
    (fun p => p.1 ≠ tok)) ++ [(tok, uid)]

/-- Durable half of a token issuance (`generateToken`, `paintboard.ts`):
`deleteTokensByUid` followed by `saveToken`. -/
def dbRotate (rows : List (String × Nat)) (uid : Nat) (fresh : String) :
    List (String × Nat) :=
  dbSaveToken (dbDeleteTokensByUid rows uid) fresh uid

/-- A sequence of successful token issuances for one uid, given the fresh
`randomUUID` strings drawn. -/
def issueSeq (s : PBState) (uid : Nat) (freshes : List String) : PBState :=
  freshes.foldl (fun st t => rotateToken st uid t) s

/-- The same issuance sequence on the durable `tokens` table. -/
def dbIssueSeq (rows : List (String × Nat)) (uid : Nat)
    (freshes : List String) : List (String × Nat) :=
  freshes.foldl (fun r t => dbRotate r uid t) rows

/-- Server-level mutable state of `index.ts`: the IP ban table (`bannedIPs`, IP
to ban-expiry timestamp) and the per-IP list of open WebSocket connection ids
(`ipConnections`). -/
structure ServerState where
  bannedIPs : List (String × Int)
  ipConnections : List (String × List Nat)
deriving DecidableEq, Repr

/-- Per-connection packet-rate window (`WebSocketData.packetsReceived` and
`lastPacketCountReset`). -/
structure ConnRate where
  packetsReceived : Nat
  lastPacketCountReset : Int
deriving DecidableEq, Repr

/-- Outcome of the rate-limit prologue of the message handler: the updated
server state and window, the `(connection id, close code)` pairs issued, and
whether the message was dropped as rate-limited. -/
structure RateStepResult where
  srv : ServerState
  conn : ConnRate
  closes : List (Nat × Nat)
  limited : Bool
deriving DecidableEq, Repr

/-- Rate-limit prologue of the WebSocket message handler (`index.ts`): reset
the 1-second window when it has expired, count this message, and on exceeding
`maxPacketPerSecond` ban the IP for the fixed 15000 ms, close every connection
of that IP with code 1013 and drop its connection list. -/
def rateLimitStep (maxPacketPerSecond : Nat) (srv : ServerState) (ip : String)
    (cr : ConnRate) (now : Int) : RateStepResult :=
  let cr1 := if now - cr.lastPacketCountReset ≥ 1000 then
    { packetsReceived := 0, lastPacketCountReset := now } else cr
  let cr2 := { cr1 with packetsReceived := cr1.packetsReceived + 1 }
  if cr2.packetsReceived > maxPacketPerSecond then
    let conns := (mapGet srv.ipConnections ip).getD []
    { srv :=
        { bannedIPs := mapSet srv.bannedIPs ip (now + 15000)
          ipConnections := srv.ipConnections.filter (fun p => p.1 ≠ ip) }
      conn := cr2
      closes := conns.map (fun cid => (cid, 1013))
      limited := true }
  else { srv := srv, conn := cr2, closes := [], limited := false }

/-- Outcome of the ban check at the top of the HTTP `fetch` handler: possibly
updated ban table, the early status when banned, and the value of the
`Retry-After` header in seconds. -/
structure HttpBanCheck where
  srv : ServerState
  status : Option Nat
  retryAfter : Option Int
deriving DecidableEq, Repr

/-- Ban gate of the HTTP `fetch` handler (`index.ts`): `isBanned` lazily drops
an expired entry; a live ban answers 429 with `Retry-After` equal to
`Math.ceil((banUntil - now) / 1000)` seconds (the expression below is that
ceiling for the positive remaining time). -/
def httpBanGate (srv : ServerState) (ip : String) (now : Int) : HttpBanCheck :=
  match mapGet srv.bannedIPs ip with
  | none => { srv := srv, status := none, retryAfter := none }
  | some banUntil =>
    if now ≥ banUntil then
      { srv := { srv with
          bannedIPs := srv.bannedIPs.filter (fun p => p.1 ≠ ip) }
        status := none, retryAfter := none }
    else
      { srv := srv, status := some 429
        retryAfter := some ((banUntil - now + 999) / 1000) }

/-- Recognized configuration keys (`index.ts`, `configSchema`, a zod strict
object): any other key is rejected at load time. -/
structure Config where
  logLevel : String
  port : Nat
  paintDelay : Int
  useDB : Bool
  width : Nat
  height : Nat
  clearBoard : Bool
  validationPaste : String
  key : Option String
  cert : Option String
  maxWebSocketPerIP : Nat
  banDuration : Int
  ticksPerSecond : Nat
  maxPacketPerSecond : Nat
  enableTokenCounting : Bool
  maxAllowedUID : Option Nat
  banToken : Option String
deriving DecidableEq, Repr

/-- The property access `config.botToken` performed by the admin handlers
(`index.ts`): `botToken` is not one of the schema's keys (the schema declares
`banToken` instead), so on the parsed config object the access evaluates to
the JavaScript `undefined`, regardless of the configuration. -/
def configBotToken (_cfg : Config) : Option String := none

/-- Body of the admin ban/unban endpoints (`types.ts`, `banUidData`): the
`token` field is absent (`undefined`) when the JSON body omits it. -/
structure BanUidBody where
  token : Option String
  uid : Nat
deriving DecidableEq, Repr

/-- `POST /api/root/banuid` handler (`index.ts`): status code and resulting
uid ban set. The set gains the uid only when the body token passes the
comparison against `config.botToken`. -/
def handleBanUid (c : Config) (bannedUIDs : List Nat) (body : BanUidBody) :
    Nat × List Nat :=
  if body.token ≠ configBotToken c then (401, bannedUIDs)
  else (200, if body.uid ∈ bannedUIDs then bannedUIDs else
    bannedUIDs ++ [body.uid])

/-- `POST /api/root/unbanuid` handler (`index.ts`). -/
def handleUnbanUid (c : Config) (bannedUIDs : List Nat) (body : BanUidBody) :
    Nat × List Nat :=
  if body.token ≠ configBotToken c then (401, bannedUIDs)
  else (200, bannedUIDs.filter (fun u => u ≠ body.uid))

/-- A `tokens` table row value as built by `loadTokens` (`database.ts`,
`Token` of `types.ts`). -/
structure TokenInfo where
  uid : Nat
  token : String
deriving DecidableEq, Repr

/-- First pass of `DBManager.loadTokens` (`database.ts`): the temporary
`uidLastToken` map, keyed by uid, holding for each uid the last row read. -/
def uidLastToken (rows : List (String × Nat)) : List (Nat × TokenInfo) :=
  rows.foldl (fun m row => mapSet m row.2 ⟨row.2, row.1⟩) []

/-- `DBManager.loadTokens` (`database.ts`): read all `(token, uid)` rows, keep
for each uid only the last row read (`uidLastToken`), then build the returned
map keyed by token string from that map's values. -/
def loadTokens (rows : List (String × Nat)) : List (String × TokenInfo) :=
  ((uidLastToken rows).map (·.2)).foldl
    (fun m t => mapSet m t.token t) ([] : List (String × TokenInfo))

/-- The last `tokens` row read for a uid, if any. -/
def lastRowTokenFor (rows : List (String × Nat)) (u : Nat) : Option String :=
  (rows.reverse.find? (fun r => r.2 = u)).map (·.1)

/-- Little-endian 16-bit value from two bytes (`DataView.getUint16`). -/
def le16 (b0 b1 : Nat) : Nat := b0 + 256 * b1

/-- Little-endian 32-bit value from four bytes (`DataView.getUint32`). -/
def le32 (b0 b1 b2 b3 : Nat) : Nat :=
  b0 + 256 * b1 + 65536 * b2 + 16777216 * b3

/-- Lowercase hex digit. -/
def hexDigit (n : Nat) : Char :=
  if n < 10 then Char.ofNat (48 + n) else Char.ofNat (87 + n)

/-- Two lowercase hex characters of one byte (`Buffer.toString('hex')`). -/
def byteHex (b : Nat) : List Char := [hexDigit (b / 16 % 16), hexDigit (b % 16)]

/-- Hex string of a byte sequence. -/
def bytesHex (bs : List Nat) : String := String.mk (bs.flatMap byteHex)

/-- Canonical 8-4-4-4-12 hyphenated rendering of the 16 raw token bytes of a
0xFE packet (`index.ts`, the `token` slices joined with `-`). -/
def tokenHex (bs : List Nat) : String :=
  bytesHex (bs.take 4) ++ "-" ++ bytesHex ((bs.drop 4).take 2) ++ "-" ++
  bytesHex ((bs.drop 6).take 2) ++ "-" ++ bytesHex ((bs.drop 8).take 2) ++
  "-" ++ bytesHex ((bs.drop 10).take 6)

/-- Decode and execute one 0xFE paint packet body, the 30 bytes following the
tag, and build the 0xFF paint-result packet for its request id (`index.ts`,
case 0xfe). The id bytes `id >> k & 255` are `id / 256^k % 256` for the
unsigned 32-bit ids produced by `getUint32`. -/
def paintPacketStep (banned : List Nat) (pb : PBState) (payload : List Nat)
    (now : Int) : PBState × List Nat :=
  let q := fun i => getByte payload i
  let x : Int := (le16 (q 0) (q 1) : Nat)
  let y : Int := (le16 (q 2) (q 3) : Nat)
  let c : Color := ⟨q 4, q 5, q 6⟩
  let uid := q 7 + 256 * q 8 + 65536 * q 9
  let token := tokenHex ((payload.drop 10).take 16)
  let id := le32 (q 26) (q 27) (q 28) (q 29)
  let pr := paintAttempt banned pb token uid x y c now
  (pr.1, [0xff, id % 256, id / 256 % 256, id / 65536 % 256,
    id / 16777216 % 256, pr.2])

/-- Protocol-level per-connection state used by the decode loop: the heartbeat
`waitingPong` flag (`WebSocketData.waitingPong`). -/
structure ConnState where
  waitingPong : Bool
deriving DecidableEq, Repr

/-- Result of decoding one WebSocket frame: board state, connection state, the
0xFF responses appended to the send buffer, and the close code when the
connection was closed. -/
structure FrameResult where
  pb : PBState
  conn : ConnState
  responses : List (List Nat)
  closeCode : Option Nat
deriving DecidableEq, Repr

/-- The packet-decoding while-loop of the WebSocket message handler
(`index.ts`): packets concatenated in one binary frame are decoded in
sequence. An unexpected 0xFB pong or an unknown tag closes with 1002; a 0xFE
packet whose remaining bytes fall short of its 30-byte body makes a `DataView`
read throw, which the frame-boundary catch turns into close 1011, with the
effects of the packets already decoded left in place. The loop is total. -/
def decodeLoop (banned : List Nat) (pb : PBState) (conn : ConnState)
    (bytes : List Nat) (now : Int) : FrameResult :=
  match bytes with
  | [] => ⟨pb, conn, [], none⟩
  | tag :: rest =>
    if tag = 0xfb then
      if !conn.waitingPong then ⟨pb, conn, [], some 1002⟩
      else decodeLoop banned pb { waitingPong := false } rest now
    else if tag = 0xfe then
      if 30 ≤ rest.length then
        let st := paintPacketStep banned pb (rest.take 30) now
        let r := decodeLoop banned st.1 conn (rest.drop 30) now
        ⟨r.pb, r.conn, st.2 :: r.responses, r.closeCode⟩
      else ⟨pb, conn, [], some 1011⟩
    else ⟨pb, conn, [], some 1002⟩
termination_by bytes.length
decreasing_by
  · simp
  · simp [List.length_drop]; omega

/-- Combined result of one WebSocket `message` invocation. -/
structure MessageResult where
  srv : ServerState
  conn : ConnRate
  pstate : ConnState
  pb : PBState
  responses : List (List Nat)
  closes : List (Nat × Nat)
  closeCode : Option Nat
deriving DecidableEq, Repr

/-- The WebSocket `message` handler (`index.ts`): the rate-limit window is
updated and checked once per frame, regardless of how many packets the frame
concatenates; only then is the decode loop run. -/
def handleMessage (maxPPS : Nat) (banned : List Nat) (srv : ServerState)
    (ip : String) (cr : ConnRate) (cs : ConnState) (pb : PBState)
    (bytes : List Nat) (now : Int) : MessageResult :=
  let rl := rateLimitStep maxPPS srv ip cr now
  if rl.limited then ⟨rl.srv, rl.conn, cs, pb, [], rl.closes, none⟩
  else
    let fr := decodeLoop banned pb cs bytes now
    ⟨rl.srv, rl.conn, fr.conn, fr.pb, fr.responses, [], fr.closeCode⟩

/-- Sequential paint-packet execution: the state threading and responses of a
frame that consists only of well-formed 0xFE packets. -/
def procPaints (banned : List Nat) (pb : PBState) (payloads : List (List Nat))
    (now : Int) : PBState × List (List Nat) :=
  match payloads with
  | [] => (pb, [])
  | p :: rest =>
    let st := paintPacketStep banned pb p now
    let r := procPaints banned st.1 rest now
    (r.1, st.2 :: r.2)

/-- A frame concatenating the given 0xFE packet bodies. -/
def paintFrame (payloads : List (List Nat)) : List Nat :=
  payloads.flatMap (fun p => 0xfe :: p)

/-- Cooldown condition as claim C1 words it: a cooldown entry exists and
`now` minus it is below the delay. -/
def specCooling (entry : Option Int) (delay now : Int) : Bool :=
  match entry with
  | some t => decide (now - t < delay)
  | none => false

/-- Result cascade in the words of spec §4.3 and claim C1: ban check, then
token lookup and uid match, then cooldown, then bounds, else success. This
definition follows the claim's text, to be compared with `paintAttempt`. -/
def specTryPaintCode (banned : List Nat) (s : PBState) (token : String)
    (uid : Nat) (x y : Int) (now : Int) : Nat :=
  if uid ∈ banned then NO_PERMISSION
  else if mapGet s.tokens token ≠ some uid then INVALID_TOKEN
  else if specCooling (mapGet s.lastPaintTime uid) s.paintDelay now then
    COOLING
  else if ¬(0 ≤ x ∧ x < (s.width : Int) ∧ 0 ≤ y ∧ y < (s.height : Int)) then
    BAD_FORMAT
  else SUCCESS

/-- Every stored last-paint timestamp is positive, as `Date.now()` values are:
entries are only ever written with the current wall-clock time. -/
def posEntries (s : PBState) : Prop :=
  ∀ u t, mapGet s.lastPaintTime u = some t → 0 < t

section MapLemmas

variable {α β : Type} [DecidableEq α]

theorem find?_map_replace_self (k : α) (v : β) :
    ∀ m : List (α × β), m.any (fun p => p.1 = k) = true →
      (m.map (fun p => if p.1 = k then (k, v) else p)).find?
        (fun q => q.1 = k) = some (k, v) := by
  intro m
  induction m with
  | nil => simp
  | cons p t ih =>
    intro h
    by_cases hp : p.1 = k
    · simp [List.find?, hp]
    · simp only [List.any_cons, Bool.or_eq_true, decide_eq_true_eq] at h
      rcases h with h | h
      · exact absurd h hp
      · simpa [List.find?, hp] using ih h

theorem find?_map_replace_ne (k k' : α) (v : β) (hk : k' ≠ k) :
    ∀ m : List (α × β),
      (m.map (fun p => if p.1 = k then (k, v) else p)).find?
        (fun q => q.1 = k') = m.find? (fun q => q.1 = k') := by
  intro m
  induction m with
  | nil => simp
  | cons p t ih =>
    rw [List.map_cons]
    by_cases hp : p.1 = k
    · rw [if_pos hp]
      rw [List.find?_cons_of_neg _ (by
            simp only [decide_eq_true_eq]
            exact fun he => hk he.symm),
          List.find?_cons_of_neg _ (by
            simp only [decide_eq_true_eq]
            intro he
            apply hk
            rw [← he, hp])]
      exact ih
    · rw [if_neg hp]
      by_cases hp' : p.1 = k'
      · rw [List.find?_cons_of_pos _ (by simp [hp']),
          List.find?_cons_of_pos _ (by simp [hp'])]
      · rw [List.find?_cons_of_neg _ (by simp [hp']),
          List.find?_cons_of_neg _ (by simp [hp'])]
        exact ih

theorem mapGet_mapSet_self (m : List (α × β)) (k : α) (v : β) :
    mapGet (mapSet m k v) k = some v := by
  unfold mapSet
  split
  case isTrue h =>
    unfold mapGet
    rw [find?_map_replace_self k v m h]
    rfl
  case isFalse h =>
    unfold mapGet
    rw [List.find?_append]
    have hnone : m.find? (fun q => q.1 = k) = none := by
      rw [List.find?_eq_none]
      intro p hp
      simp only [decide_eq_true_eq]
      intro hpk
      exact h (List.any_eq_true.mpr ⟨p, hp, by simp [hpk]⟩)
    simp [hnone]

theorem mapGet_mapSet_ne (m : List (α × β)) (k k' : α) (v : β) (hk : k' ≠ k) :
    mapGet (mapSet m k v) k' = mapGet m k' := by
  unfold mapSet
  split
  case isTrue h =>
    unfold mapGet
    rw [find?_map_replace_ne k k' v hk m]
  case isFalse h =>
    unfold mapGet
    rw [List.find?_append]
    have hkk : ¬ (k = k') := fun he => hk he.symm
    have h1 : List.find? (fun q => decide (q.1 = k')) [(k, v)] = none := by
      simp [hkk]
    rw [h1]
    cases hm : m.find? (fun q => decide (q.1 = k')) <;> simp [hm]

theorem mapSet_keys (m : List (α × β)) (k : α) (v : β) :
    (mapSet m k v).map (·.1) = m.map (·.1) ∨
    ((mapSet m k v).map (·.1) = m.map (·.1) ++ [k] ∧
      ∀ p ∈ m, p.1 ≠ k) := by
  unfold mapSet
  split
  case isTrue h =>
    left
    rw [List.map_map]
    apply List.map_congr_left
    intro p _
    by_cases hp : p.1 = k <;> simp [hp]
  case isFalse h =>
    right
    refine ⟨by simp, ?_⟩
    intro p hp hpk
    exact h (List.any_eq_true.mpr ⟨p, hp, by simp [hpk]⟩)

theorem mapSet_keys_nodup (m : List (α × β)) (k : α) (v : β)
    (h : (m.map (·.1)).Nodup) : ((mapSet m k v).map (·.1)).Nodup := by
  rcases mapSet_keys m k v with hk | ⟨hk, hmem⟩
  · rw [hk]; exact h
  · rw [hk]
    rw [List.nodup_append]
    refine ⟨h, List.nodup_singleton k, ?_⟩
    intro a ha hb
    simp only [List.mem_singleton] at hb
    subst hb
    rcases List.mem_map.mp ha with ⟨p, hp, hpa⟩
    exact hmem p hp hpa

theorem mapGet_of_mem_nodup (m : List (α × β)) (k : α) (v : β)
    (hmem : (k, v) ∈ m) (h : (m.map (·.1)).Nodup) : mapGet m k = some v := by
  induction m with
  | nil => simp at hmem
  | cons p t ih =>
    simp only [List.map_cons, List.nodup_cons] at h
    rcases List.mem_cons.mp hmem with hh | hh
    · subst hh
      simp [mapGet, List.find?]
    · have hpk : p.1 ≠ k := by
        intro hpk
        exact h.1 (hpk ▸ List.mem_map.mpr ⟨(k, v), hh, rfl⟩)
      have := ih hh h.2
      simpa [mapGet, List.find?, hpk] using this

theorem mapGet_eq_none (m : List (α × β)) (k : α)
    (h : ∀ p ∈ m, p.1 ≠ k) : mapGet m k = none := by
  unfold mapGet
  rw [List.find?_eq_none.mpr]
  · rfl
  · intro p hp
    simp [h p hp]

theorem mem_mapSet (m : List (α × β)) (k : α) (v : β) (q : α × β)
    (hq : q ∈ mapSet m k v) : q = (k, v) ∨ (q ∈ m ∧ q.1 ≠ k) := by
  unfold mapSet at hq
  split at hq
  case isTrue h =>
    rcases List.mem_map.mp hq with ⟨p, hp, hpq⟩
    by_cases hpk : p.1 = k
    · simp only [hpk, if_pos rfl] at hpq
      exact Or.inl hpq.symm
    · simp only [if_neg hpk] at hpq
      exact Or.inr ⟨hpq ▸ hp, hpq ▸ hpk⟩
  case isFalse h =>
    rcases List.mem_append.mp hq with hh | hh
    · refine Or.inr ⟨hh, ?_⟩
      intro hqk
      exact h (List.any_eq_true.mpr ⟨q, hh, by simp [hqk]⟩)
    · simp only [List.mem_singleton] at hh
      exact Or.inl hh

end MapLemmas

theorem mapGet_filter_ne {α β : Type} [DecidableEq α] (m : List (α × β))
    (k : α) : mapGet (m.filter (fun p => p.1 ≠ k)) k = none := by
  apply mapGet_eq_none
  intro p hp
  have := List.of_mem_filter hp
  simpa using this

theorem setPixel_snd (s : PBState) (x y : Int) (c : Color) :
    (setPixel s x y c).2 =
      decide (0 ≤ x ∧ x < (s.width : Int) ∧ 0 ≤ y ∧ y < (s.height : Int)) := by
  unfold setPixel
  by_cases h : x < 0 ∨ x ≥ (s.width : Int) ∨ y < 0 ∨ y ≥ (s.height : Int)
  · rw [if_pos h]
    have hout : ¬(0 ≤ x ∧ x < (s.width : Int) ∧ 0 ≤ y ∧ y < (s.height : Int)) := by
      omega
    simp [hout]
  · rw [if_neg h]
    have hin : 0 ≤ x ∧ x < (s.width : Int) ∧ 0 ≤ y ∧ y < (s.height : Int) := by
      omega
    dsimp only
    split <;> simp [hin]

theorem setPixel_preserves (s : PBState) (x y : Int) (c : Color) :
    (setPixel s x y c).1.width = s.width ∧
    (setPixel s x y c).1.height = s.height ∧
    (setPixel s x y c).1.paintDelay = s.paintDelay ∧
    (setPixel s x y c).1.tokens = s.tokens ∧
    (setPixel s x y c).1.lastPaintTime = s.lastPaintTime := by
  unfold setPixel
  split
  · exact ⟨rfl, rfl, rfl, rfl, rfl⟩
  · dsimp only
    split <;> exact ⟨rfl, rfl, rfl, rfl, rfl⟩

theorem validateToken_cases (s : PBState) (tok : String) (uid : Nat)
    (now : Int) :
    (validateToken s tok uid now = (s, INVALID_TOKEN) ∧
      mapGet s.tokens tok ≠ some uid) ∨
    (validateToken s tok uid now = (s, COOLING) ∧
      mapGet s.tokens tok = some uid ∧
      coolingCheck (mapGet s.lastPaintTime uid) s.paintDelay now = true) ∨
    (validateToken s tok uid now =
        ({ s with lastPaintTime := mapSet s.lastPaintTime uid now }, SUCCESS) ∧
      mapGet s.tokens tok = some uid ∧
      coolingCheck (mapGet s.lastPaintTime uid) s.paintDelay now = false) := by
  unfold validateToken
  cases h : mapGet s.tokens tok with
  | none => exact Or.inl ⟨rfl, by simp⟩
  | some b =>
    by_cases hb : b = uid
    · subst hb
      by_cases hc :
          coolingCheck (mapGet s.lastPaintTime b) s.paintDelay now = true
      · exact Or.inr (Or.inl ⟨by simp [hc], rfl, hc⟩)
      · refine Or.inr (Or.inr ⟨?_, rfl, by simpa using hc⟩)
        simp only [ne_eq, not_true_eq_false, if_false, hc]
        simp [Bool.not_eq_true] at hc
        simp [hc]
    · refine Or.inl ⟨?_, by simp [hb]⟩
      simp [hb]

theorem paintAttempt_cases (banned : List Nat) (s : PBState) (token : String)
    (uid : Nat) (x y : Int) (c : Color) (now : Int) :
    (uid ∈ banned ∧
      paintAttempt banned s token uid x y c now = (s, NO_PERMISSION)) ∨
    (uid ∉ banned ∧ mapGet s.tokens token ≠ some uid ∧
      paintAttempt banned s token uid x y c now = (s, INVALID_TOKEN)) ∨
    (uid ∉ banned ∧ mapGet s.tokens token = some uid ∧
      coolingCheck (mapGet s.lastPaintTime uid) s.paintDelay now = true ∧
      paintAttempt banned s token uid x y c now = (s, COOLING)) ∨
    (uid ∉ banned ∧ mapGet s.tokens token = some uid ∧
      coolingCheck (mapGet s.lastPaintTime uid) s.paintDelay now = false ∧
      paintAttempt banned s token uid x y c now =
        ((setPixel { s with lastPaintTime := mapSet s.lastPaintTime uid now }
            x y c).1,
          if (setPixel { s with
              lastPaintTime := mapSet s.lastPaintTime uid now } x y c).2
          then SUCCESS else BAD_FORMAT)) := by
  by_cases hban : uid ∈ banned
  · exact Or.inl ⟨hban, by unfold paintAttempt; rw [if_pos hban]⟩
  · rcases validateToken_cases s token uid now with
      ⟨hv, hl⟩ | ⟨hv, hl, hc⟩ | ⟨hv, hl, hc⟩
    · refine Or.inr (Or.inl ⟨hban, hl, ?_⟩)
      unfold paintAttempt
      rw [if_neg hban, hv]
      norm_num [INVALID_TOKEN, SUCCESS]
    · refine Or.inr (Or.inr (Or.inl ⟨hban, hl, hc, ?_⟩))
      unfold paintAttempt
      rw [if_neg hban, hv]
      norm_num [COOLING, SUCCESS]
    · refine Or.inr (Or.inr (Or.inr ⟨hban, hl, hc, ?_⟩))
      unfold paintAttempt
      rw [if_neg hban, hv]
      dsimp only
      rw [if_pos (rfl : SUCCESS = SUCCESS)]
      split <;> rfl

/-- C1: for every 0xFE paint attempt the engine returns exactly one of the
specified result codes, decided by the specified checks in the specified
order: uid ban, then token lookup and uid match, then cooldown, then bounds,
else success. The engine is a total function, so it never raises. The stored
cooldown timestamps are wall-clock values, hence positive (`posEntries`). -/
theorem c1_tryPaint_result_cascade (banned : List Nat) (s : PBState)
    (token : String) (uid : Nat) (x y : Int) (c : Color) (now : Int)
    (hpos : posEntries s) :
    (paintAttempt banned s token uid x y c now).2 =
      specTryPaintCode banned s token uid x y now ∧
    (paintAttempt banned s token uid x y c now).2 ∈
      [SUCCESS, INVALID_TOKEN, COOLING, BAD_FORMAT, NO_PERMISSION] := by
  have hcc : coolingCheck (mapGet s.lastPaintTime uid) s.paintDelay now =
      specCooling (mapGet s.lastPaintTime uid) s.paintDelay now := by
    unfold coolingCheck specCooling
    cases he : mapGet s.lastPaintTime uid with
    | none => rfl
    | some t =>
      have ht : 0 < t := hpos uid t he
      have ht0 : t ≠ 0 := by omega
      simp [ht0]
  rcases paintAttempt_cases banned s token uid x y c now with
    ⟨hban, hp⟩ | ⟨hban, hl, hp⟩ | ⟨hban, hl, hc, hp⟩ | ⟨hban, hl, hc, hp⟩
  · rw [hp]
    unfold specTryPaintCode
    rw [if_pos hban]
    exact ⟨rfl, by simp⟩
  · rw [hp]
    unfold specTryPaintCode
    rw [if_neg hban, if_pos hl]
    exact ⟨rfl, by simp⟩
  · rw [hp]
    unfold specTryPaintCode
    rw [if_neg hban, if_neg (by simp [hl]), if_pos (by rw [← hcc, hc])]
    exact ⟨rfl, by simp⟩
  · rw [hp]
    dsimp only
    rw [setPixel_snd]
    dsimp only
    unfold specTryPaintCode
    by_cases hin : 0 ≤ x ∧ x < (s.width : Int) ∧ 0 ≤ y ∧ y < (s.height : Int)
    · rw [if_pos (show decide (0 ≤ x ∧ x < (s.width : Int) ∧ 0 ≤ y ∧
          y < (s.height : Int)) = true from by simpa using hin)]
      rw [if_neg hban, if_neg (by simp [hl]),
        if_neg (by rw [← hcc, hc]; exact Bool.false_ne_true),
        if_neg (by simpa using hin)]
      exact ⟨rfl, by simp⟩
    · rw [if_neg (show ¬(decide (0 ≤ x ∧ x < (s.width : Int) ∧ 0 ≤ y ∧
          y < (s.height : Int)) = true) from by simpa using hin)]
      rw [if_neg hban, if_neg (by simp [hl]),
        if_neg (by rw [← hcc, hc]; exact Bool.false_ne_true),
        if_pos (by simpa using hin)]
      exact ⟨rfl, by simp⟩

/-- Closed instance check for `c1_tryPaint_result_cascade`. -/
theorem c1_witness :
    posEntries (initialState 4 2 1000) ∧
    (paintAttempt [] (initialState 4 2 1000) "t" 42 1 0 ⟨255, 0, 0⟩ 7).2 =
      specTryPaintCode [] (initialState 4 2 1000) "t" 42 1 0 7 :=
  ⟨fun u t h => by simp [initialState, mapGet] at h,
    (c1_tryPaint_result_cascade [] (initialState 4 2 1000) "t" 42 1 0
      ⟨255, 0, 0⟩ 7 (fun u t h => by simp [initialState, mapGet] at h)).1⟩

/-- Concrete state for the C3 counterexample: a 2×2 board with a registered
token for uid 42 and no cooldown entry. -/
def c3State : PBState :=
  { width := 2
    height := 2
    pixelView := List.replicate 12 170
    tokens := [("tok", 42)]
    paintDelay := 1000
    lastPaintTime := []
    dirtyFlags := List.replicate 4 false
    dirtyList := [] }

/-- C3 counterexample: an in-cooldown-range but out-of-bounds paint (x = 10 on
a width-2 board) returns BAD_FORMAT yet writes the cooldown entry, so the
bounds check does not precede the cooldown update as the claim states. -/
theorem c3_counterexample :
    (paintAttempt [] c3State "tok" 42 10 0 ⟨1, 2, 3⟩ 5).2 = BAD_FORMAT ∧
    mapGet c3State.lastPaintTime 42 = none ∧
    mapGet (paintAttempt [] c3State "tok" 42 10 0 ⟨1, 2, 3⟩ 5).1.lastPaintTime
      42 = some 5 := by
  decide

/-- C3 amended: the cooldown entry for the uid is written exactly when
`validateToken` returns SUCCESS, that is, when the overall outcome is SUCCESS
or BAD_FORMAT; a COOLING, INVALID_TOKEN or NO_PERMISSION outcome leaves the
cooldown table unchanged. -/
theorem c3_cooldown_update_amended (banned : List Nat) (s : PBState)
    (token : String) (uid : Nat) (x y : Int) (c : Color) (now : Int) :
    ((paintAttempt banned s token uid x y c now).2 = COOLING ∨
      (paintAttempt banned s token uid x y c now).2 = INVALID_TOKEN ∨
      (paintAttempt banned s token uid x y c now).2 = NO_PERMISSION →
      (paintAttempt banned s token uid x y c now).1.lastPaintTime =
        s.lastPaintTime) ∧
    ((paintAttempt banned s token uid x y c now).2 = SUCCESS ∨
      (paintAttempt banned s token uid x y c now).2 = BAD_FORMAT →
      (paintAttempt banned s token uid x y c now).1.lastPaintTime =
        mapSet s.lastPaintTime uid now) := by
  rcases paintAttempt_cases banned s token uid x y c now with
    ⟨_, hp⟩ | ⟨_, _, hp⟩ | ⟨_, _, _, hp⟩ | ⟨_, _, _, hp⟩
  · rw [hp]
    refine ⟨fun _ => rfl, fun h => ?_⟩
    rcases h with h | h <;>
      simp [NO_PERMISSION, SUCCESS, BAD_FORMAT] at h
  · rw [hp]
    refine ⟨fun _ => rfl, fun h => ?_⟩
    rcases h with h | h <;>
      simp [INVALID_TOKEN, SUCCESS, BAD_FORMAT] at h
  · rw [hp]
    refine ⟨fun _ => rfl, fun h => ?_⟩
    rcases h with h | h <;>
      simp [COOLING, SUCCESS, BAD_FORMAT] at h
  · rw [hp]
    have hlp := (setPixel_preserves
      { s with lastPaintTime := mapSet s.lastPaintTime uid now } x y c).2.2.2.2
    refine ⟨fun h => ?_, fun _ => ?_⟩
    · exfalso
      rcases h with h | h | h <;>
        revert h <;>
        split <;>
        simp [COOLING, INVALID_TOKEN, NO_PERMISSION, SUCCESS, BAD_FORMAT]
    · exact hlp

/-- Closed instance check for `c3_cooldown_update_amended`. -/
theorem c3_amended_witness :
    (paintAttempt [] c3State "tok" 42 10 0 ⟨1, 2, 3⟩ 5).1.lastPaintTime =
      mapSet c3State.lastPaintTime 42 5 :=
  (c3_cooldown_update_amended [] c3State "tok" 42 10 0 ⟨1, 2, 3⟩ 5).2
    (Or.inr (by decide))

/-- Concrete configuration with the admin token `banToken` set. -/
def c8Config : Config :=
  { logLevel := "info"
    port := 8000
    paintDelay := 1000
    useDB := false
    width := 1000
    height := 600
    clearBoard := false
    validationPaste := "IkaPaintBoard"
    key := none
    cert := none
    maxWebSocketPerIP := 0
    banDuration := 60000
    ticksPerSecond := 128
    maxPacketPerSecond := 128
    enableTokenCounting := false
    maxAllowedUID := none
    banToken := some "secret" }

/-- C8: the admin handlers compare the body token against `config.botToken`,
a key absent from the config schema (which declares `banToken`), so the
comparison is against `undefined`: a request presenting the configured admin
token is rejected with 401 and the uid ban set is left unchanged, contrary to
the claim; a request omitting the token field passes the check. -/
theorem c8_admin_token_bug :
    handleBanUid c8Config [] { token := some "secret", uid := 5 } =
      (401, []) ∧
    handleUnbanUid c8Config [5] { token := some "secret", uid := 5 } =
      (401, [5]) ∧
    c8Config.banToken = some "secret" ∧
    handleBanUid c8Config [] { token := none, uid := 5 } = (200, [5]) := by
  decide

theorem httpBanGate_banned (srv : ServerState) (ip : String)
    (now2 banUntil : Int) (hb : mapGet srv.bannedIPs ip = some banUntil)
    (hlt : now2 < banUntil) :
    (httpBanGate srv ip now2).status = some 429 ∧
    (httpBanGate srv ip now2).retryAfter =
      some ((banUntil - now2 + 999) / 1000) := by
  unfold httpBanGate
  rw [hb]
  dsimp only
  rw [if_neg (by omega)]
  exact ⟨rfl, rfl⟩

theorem rateLimitStep_eq_limited (maxPPS : Nat) (srv : ServerState)
    (ip : String) (cr : ConnRate) (now : Int)
    (hl : (if now - cr.lastPacketCountReset ≥ 1000 then 0
      else cr.packetsReceived) + 1 > maxPPS) :
    rateLimitStep maxPPS srv ip cr now =
      { srv := { bannedIPs := mapSet srv.bannedIPs ip (now + 15000),
                 ipConnections := srv.ipConnections.filter (fun p => p.1 ≠ ip) },
        conn := { packetsReceived := (if now - cr.lastPacketCountReset ≥ 1000
                    then 0 else cr.packetsReceived) + 1,
                  lastPacketCountReset := if now - cr.lastPacketCountReset ≥
                    1000 then now else cr.lastPacketCountReset },
        closes := ((mapGet srv.ipConnections ip).getD []).map
          (fun cid => (cid, 1013)),
        limited := true } := by
  unfold rateLimitStep
  by_cases hw : now - cr.lastPacketCountReset ≥ 1000
  · simp only [if_pos hw]
    rw [if_pos (by simpa [if_pos hw] using hl)]
  · simp only [if_neg hw]
    rw [if_pos (by simpa [if_neg hw] using hl)]

theorem rateLimitStep_eq_ok (maxPPS : Nat) (srv : ServerState)
    (ip : String) (cr : ConnRate) (now : Int)
    (hl : ¬((if now - cr.lastPacketCountReset ≥ 1000 then 0
      else cr.packetsReceived) + 1 > maxPPS)) :
    rateLimitStep maxPPS srv ip cr now =
      { srv := srv,
        conn := { packetsReceived := (if now - cr.lastPacketCountReset ≥ 1000
                    then 0 else cr.packetsReceived) + 1,
                  lastPacketCountReset := if now - cr.lastPacketCountReset ≥
                    1000 then now else cr.lastPacketCountReset },
        closes := [],
        limited := false } := by
  unfold rateLimitStep
  by_cases hw : now - cr.lastPacketCountReset ≥ 1000
  · simp only [if_pos hw]
    rw [if_neg (by simpa [if_pos hw] using hl)]
  · simp only [if_neg hw]
    rw [if_neg (by simpa [if_neg hw] using hl)]

/-- C7: whenever the per-connection packet counter exceeds
`maxPacketPerSecond` inside a 1-second window (with the window resetting on
the first packet after it expires), the IP is banned for the fixed 15000 ms,
every open connection of that IP is closed with code 1013, the IP's
connection list is dropped, and for the remainder of the ban every HTTP
request from that IP answers 429 with a `Retry-After` header. -/
theorem c7_packet_rate_ban (maxPPS : Nat) (srv : ServerState) (ip : String)
    (cr : ConnRate) (now : Int) :
    (rateLimitStep maxPPS srv ip cr now).conn.packetsReceived =
      (if now - cr.lastPacketCountReset ≥ 1000 then 0
        else cr.packetsReceived) + 1 ∧
    ((rateLimitStep maxPPS srv ip cr now).limited = true ↔
      (if now - cr.lastPacketCountReset ≥ 1000 then 0
        else cr.packetsReceived) + 1 > maxPPS) ∧
    ((rateLimitStep maxPPS srv ip cr now).limited = true →
      mapGet (rateLimitStep maxPPS srv ip cr now).srv.bannedIPs ip =
        some (now + 15000) ∧
      (rateLimitStep maxPPS srv ip cr now).closes =
        ((mapGet srv.ipConnections ip).getD []).map (fun cid => (cid, 1013)) ∧
      mapGet (rateLimitStep maxPPS srv ip cr now).srv.ipConnections ip =
        none ∧
      (∀ now2 : Int, now2 < now + 15000 →
        (httpBanGate (rateLimitStep maxPPS srv ip cr now).srv ip
          now2).status = some 429 ∧
        (httpBanGate (rateLimitStep maxPPS srv ip cr now).srv ip
          now2).retryAfter ≠ none)) := by
  by_cases hl : (if now - cr.lastPacketCountReset ≥ 1000 then 0
    else cr.packetsReceived) + 1 > maxPPS
  · rw [rateLimitStep_eq_limited maxPPS srv ip cr now hl]
    refine ⟨rfl, by simp [hl], fun _ => ⟨mapGet_mapSet_self _ _ _, rfl,
      mapGet_filter_ne _ _, fun now2 h2 => ?_⟩⟩
    have hb := httpBanGate_banned
      { bannedIPs := mapSet srv.bannedIPs ip (now + 15000)
        ipConnections := srv.ipConnections.filter (fun p => p.1 ≠ ip) }
      ip now2 (now + 15000) (mapGet_mapSet_self _ _ _) h2
    exact ⟨hb.1, by rw [hb.2]; simp⟩
  · rw [rateLimitStep_eq_ok maxPPS srv ip cr now hl]
    exact ⟨rfl, by simp [hl], fun h => by simp at h⟩

/-- Concrete server state for the C7 instance check. -/
def c7Srv : ServerState :=
  { bannedIPs := [], ipConnections := [("ip1", [7, 9])] }

/-- Concrete window state for the C7 instance check. -/
def c7Rate : ConnRate := { packetsReceived := 2, lastPacketCountReset := 0 }

/-- Closed instance check for `c7_packet_rate_ban`. -/
theorem c7_witness :
    mapGet (rateLimitStep 2 c7Srv "ip1" c7Rate 500).srv.bannedIPs "ip1" =
      some (500 + 15000) ∧
    (rateLimitStep 2 c7Srv "ip1" c7Rate 500).closes =
      ((mapGet c7Srv.ipConnections "ip1").getD []).map
        (fun cid => (cid, 1013)) ∧
    (httpBanGate (rateLimitStep 2 c7Srv "ip1" c7Rate 500).srv "ip1"
      600).status = some 429 := by
  have h := (c7_packet_rate_ban 2 c7Srv "ip1" c7Rate 500).2.2 (by decide)
  exact ⟨h.1, h.2.1, (h.2.2.2 600 (by decide)).1⟩

/-- Unique keys, the invariant a JavaScript `Map` maintains by construction. -/
def keysNodup {α β : Type} (m : List (α × β)) : Prop := (m.map (·.1)).Nodup

theorem mapGet_some_mem {α β : Type} [DecidableEq α] (m : List (α × β))
    (k : α) (v : β) (h : mapGet m k = some v) : (k, v) ∈ m := by
  unfold mapGet at h
  cases hf : m.find? (fun p => p.1 = k) with
  | none => rw [hf] at h; simp at h
  | some q =>
    rw [hf] at h
    simp at h
    have hm := List.mem_of_find?_eq_some hf
    have hq := List.find?_some hf
    simp only [decide_eq_true_eq] at hq
    obtain ⟨q1, q2⟩ := q
    cases hq
    cases h
    exact hm

theorem keysNodup_filter {α β : Type} (m : List (α × β)) (q : α × β → Bool)
    (h : keysNodup m) : keysNodup (m.filter q) := by
  unfold keysNodup at h ⊢
  exact ((List.filter_sublist m).map (fun p => p.1)).nodup h

theorem keysNodup_mapSet {α β : Type} [DecidableEq α] (m : List (α × β))
    (k : α) (v : β) (h : keysNodup m) : keysNodup (mapSet m k v) :=
  mapSet_keys_nodup m k v h

theorem filter_map_replace_value {α β : Type} [DecidableEq α] [DecidableEq β]
    (k : α) (b : β) :
    ∀ m : List (α × β), keysNodup m → (∀ p ∈ m, p.2 ≠ b) →
      m.any (fun p => p.1 = k) = true →
      ((m.map (fun p => if p.1 = k then (k, b) else p)).filter
        (fun p => p.2 = b)) = [(k, b)] := by
  intro m
  induction m with
  | nil => intro _ _ hany; simp at hany
  | cons p t ih =>
    intro hnd hne hany
    rw [List.map_cons]
    by_cases hp : p.1 = k
    · rw [if_pos hp]
      rw [List.filter_cons_of_pos (by simp)]
      have ht : ∀ q ∈ t.map (fun p => if p.1 = k then (k, b) else p),
          ¬((fun p : α × β => decide (p.2 = b)) q = true) := by
        intro q hq
        rcases List.mem_map.mp hq with ⟨r, hr, hrq⟩
        by_cases hrk : r.1 = k
        · exfalso
          unfold keysNodup at hnd
          simp only [List.map_cons, List.nodup_cons] at hnd
          exact hnd.1 (hp ▸ hrk ▸ List.mem_map.mpr ⟨r, hr, rfl⟩)
        · rw [← hrq, if_neg hrk]
          simp only [decide_eq_true_eq]
          exact hne r (List.mem_cons_of_mem _ hr)
      rw [List.filter_eq_nil_iff.mpr ht]
    · rw [if_neg hp]
      rw [List.filter_cons_of_neg (by
        simp only [decide_eq_true_eq]
        exact hne p (List.mem_cons_self p t))]
      have hany' : t.any (fun p => p.1 = k) = true := by
        rcases List.any_eq_true.mp hany with ⟨q, hq, hqk⟩
        rcases List.mem_cons.mp hq with hh | hh
        · have hpk : decide (p.1 = k) = true := hh ▸ hqk
          exact absurd (of_decide_eq_true hpk) hp
        · exact List.any_eq_true.mpr ⟨q, hh, by simpa using hqk⟩
      have hnd' : keysNodup t := by
        unfold keysNodup at hnd ⊢
        simp only [List.map_cons, List.nodup_cons] at hnd
        exact hnd.2
      exact ih hnd' (fun q hq => hne q (List.mem_cons_of_mem _ hq)) hany'

theorem filter_mapSet_value {α β : Type} [DecidableEq α] [DecidableEq β]
    (m : List (α × β)) (k : α) (b : β) (hnd : keysNodup m)
    (hm : ∀ p ∈ m, p.2 ≠ b) :
    (mapSet m k b).filter (fun p => p.2 = b) = [(k, b)] := by
  unfold mapSet
  split
  case isTrue hany => exact filter_map_replace_value k b m hnd hm hany
  case isFalse hany =>
    rw [List.filter_append]
    rw [List.filter_eq_nil_iff.mpr (by
      intro q hq
      simp only [decide_eq_true_eq]
      exact hm q hq)]
    simp

/-- Behaviour of one `generateToken` rotation on the in-memory registry. -/
theorem rotateToken_spec (s : PBState) (uid : Nat) (fresh : String)
    (hnd : keysNodup s.tokens) :
    keysNodup (rotateToken s uid fresh).tokens ∧
    (rotateToken s uid fresh).tokens.filter (fun p => p.2 = uid) =
      [(fresh, uid)] ∧
    mapGet (rotateToken s uid fresh).tokens fresh = some uid ∧
    (∀ t u', mapGet (rotateToken s uid fresh).tokens t = some u' → u' ≠ uid →
      mapGet s.tokens t = some u') := by
  have hfnd : keysNodup (s.tokens.filter (fun p => p.2 ≠ uid)) :=
    keysNodup_filter _ _ hnd
  have hfa : ∀ p ∈ s.tokens.filter (fun p => p.2 ≠ uid), p.2 ≠ uid := by
    intro p hp
    have := List.of_mem_filter hp
    simpa using this
  have htok : (rotateToken s uid fresh).tokens =
      mapSet (s.tokens.filter (fun p => p.2 ≠ uid)) fresh uid := rfl
  refine ⟨?_, ?_, ?_, ?_⟩
  · rw [htok]
    exact keysNodup_mapSet _ _ _ hfnd
  · rw [htok]
    exact filter_mapSet_value _ fresh uid hfnd hfa
  · rw [htok]
    exact mapGet_mapSet_self _ _ _
  · intro t u' hget hne
    rw [htok] at hget
    by_cases htf : t = fresh
    · subst htf
      rw [mapGet_mapSet_self] at hget
      cases hget
      exact absurd rfl hne
    · rw [mapGet_mapSet_ne _ _ _ _ htf] at hget
      have hmem := mapGet_some_mem _ _ _ hget
      have hmem' : (t, u') ∈ s.tokens := List.mem_of_mem_filter hmem
      exact mapGet_of_mem_nodup _ _ _ hmem' hnd

/-- Registry shape after a sequence of issuances for one uid: the earlier
fresh tokens of the sequence are `init`, the newest is `tlast`. -/
theorem issueSeq_spec (uid : Nat) :
    ∀ (init : List String) (tlast : String) (s : PBState),
      keysNodup s.tokens → (init ++ [tlast]).Nodup →
      keysNodup (issueSeq s uid (init ++ [tlast])).tokens ∧
      (∀ t u', mapGet (issueSeq s uid (init ++ [tlast])).tokens t = some u' →
        u' ≠ uid → mapGet s.tokens t = some u') ∧
      (issueSeq s uid (init ++ [tlast])).tokens.filter (fun p => p.2 = uid) =
        [(tlast, uid)] ∧
      mapGet (issueSeq s uid (init ++ [tlast])).tokens tlast = some uid ∧
      (∀ t ∈ init, mapGet (issueSeq s uid (init ++ [tlast])).tokens t =
        none) := by
  intro init
  induction init with
  | nil =>
    intro tlast s hnd _
    have h : issueSeq s uid ([] ++ [tlast]) = rotateToken s uid tlast := rfl
    rw [h]
    have hr := rotateToken_spec s uid tlast hnd
    exact ⟨hr.1, hr.2.2.2, hr.2.1, hr.2.2.1, by simp⟩
  | cons f init' ih =>
    intro tlast s hnd hfnd
    have hstep : issueSeq s uid ((f :: init') ++ [tlast]) =
        issueSeq (rotateToken s uid f) uid (init' ++ [tlast]) := rfl
    rw [hstep]
    have hr := rotateToken_spec s uid f hnd
    have hnd2 : (init' ++ [tlast]).Nodup := by
      simp only [List.cons_append, List.nodup_cons] at hfnd
      exact hfnd.2
    have hfni : f ∉ init' ++ [tlast] := by
      simp only [List.cons_append, List.nodup_cons] at hfnd
      exact hfnd.1
    have hi := ih tlast (rotateToken s uid f) hr.1 hnd2
    refine ⟨hi.1, ?_, hi.2.2.1, hi.2.2.2.1, ?_⟩
    · intro t u' hget hne
      exact hr.2.2.2 t u' (hi.2.1 t u' hget hne) hne
    · intro t ht
      rcases List.mem_cons.mp ht with hh | hh
      · subst hh
        cases hget : mapGet (issueSeq (rotateToken s uid t) uid
            (init' ++ [tlast])).tokens t with
        | none => rfl
        | some u' =>
          exfalso
          by_cases hu : u' = uid
          · rw [hu] at hget
            have hmem := mapGet_some_mem _ _ _ hget
            have hmemf : (t, uid) ∈ (issueSeq (rotateToken s uid t) uid
                (init' ++ [tlast])).tokens.filter (fun p => p.2 = uid) :=
              List.mem_filter.mpr ⟨hmem, by simp⟩
            rw [hi.2.2.1] at hmemf
            simp only [List.mem_singleton, Prod.mk.injEq] at hmemf
            apply hfni
            rw [hmemf.1]
            simp
          · have h2 := hi.2.1 t u' hget hu
            rw [hr.2.2.1] at h2
            cases h2
            exact hu rfl
      · exact hi.2.2.2.2 t hh

/-- Rows of the durable `tokens` table holding this uid after one issuance. -/
theorem dbRotate_filter (rows : List (String × Nat)) (uid : Nat)
    (fresh : String) :
    (dbRotate rows uid fresh).filter (fun p => p.2 = uid) = [(fresh, uid)] := by
  unfold dbRotate dbSaveToken dbDeleteTokensByUid
  rw [List.filter_append]
  rw [List.filter_eq_nil_iff.mpr (by
    intro q hq
    simp only [decide_eq_true_eq]
    have h1 := List.mem_of_mem_filter hq
    have h2 := List.mem_of_mem_filter h1
    have := List.of_mem_filter h2
    simpa using this)]
  simp

theorem dbIssueSeq_filter (uid : Nat) :
    ∀ (init : List String) (tlast : String) (rows : List (String × Nat)),
      (dbIssueSeq rows uid (init ++ [tlast])).filter (fun p => p.2 = uid) =
        [(tlast, uid)] := by
  intro init
  induction init with
  | nil => intro tlast rows; exact dbRotate_filter rows uid tlast
  | cons f init' ih => intro tlast rows; exact ih tlast (dbRotate rows uid f)

/-- C5: after any sequence of successful `generateToken` calls for one uid,
with fresh random tokens `init ++ [tlast]` (pairwise distinct, as `randomUUID`
draws are), exactly one registry entry maps to that uid — the newest token —
and the rows of the durable `tokens` table holding that uid are exactly the
newest binding too; a paint using a superseded token returns INVALID_TOKEN
while the newest token is not rejected as invalid. -/
theorem c5_token_rotation_uniqueness (s : PBState)
    (rows : List (String × Nat)) (uid : Nat) (init : List String)
    (tlast : String) (banned : List Nat) (x y : Int) (c : Color) (now : Int)
    (hnd : keysNodup s.tokens) (hfnd : (init ++ [tlast]).Nodup)
    (hban : uid ∉ banned) :
    (issueSeq s uid (init ++ [tlast])).tokens.filter (fun p => p.2 = uid) =
      [(tlast, uid)] ∧
    (dbIssueSeq rows uid (init ++ [tlast])).filter (fun p => p.2 = uid) =
      [(tlast, uid)] ∧
    (∀ t ∈ init, (paintAttempt banned (issueSeq s uid (init ++ [tlast])) t
      uid x y c now).2 = INVALID_TOKEN) ∧
    (paintAttempt banned (issueSeq s uid (init ++ [tlast])) tlast
      uid x y c now).2 ≠ INVALID_TOKEN := by
  have hi := issueSeq_spec uid init tlast s hnd hfnd
  refine ⟨hi.2.2.1, dbIssueSeq_filter uid init tlast rows, ?_, ?_⟩
  · intro t ht
    have hget := hi.2.2.2.2 t ht
    rcases paintAttempt_cases banned (issueSeq s uid (init ++ [tlast])) t
        uid x y c now with
      ⟨hb, _⟩ | ⟨_, _, hp⟩ | ⟨_, hl, _, _⟩ | ⟨_, hl, _, _⟩
    · exact absurd hb hban
    · rw [hp]
    · rw [hget] at hl; cases hl
    · rw [hget] at hl; cases hl
  · intro hcontra
    have hget := hi.2.2.2.1
    rcases paintAttempt_cases banned (issueSeq s uid (init ++ [tlast])) tlast
        uid x y c now with
      ⟨hb, _⟩ | ⟨_, hl, _⟩ | ⟨_, _, _, hp⟩ | ⟨_, _, _, hp⟩
    · exact absurd hb hban
    · exact hl hget
    · rw [hp] at hcontra
      simp [COOLING, INVALID_TOKEN] at hcontra
    · rw [hp] at hcontra
      revert hcontra
      dsimp only
      split <;> simp [SUCCESS, BAD_FORMAT, INVALID_TOKEN]

/-- Closed instance check for `c5_token_rotation_uniqueness`. -/
theorem c5_witness :
    (issueSeq (initialState 2 2 1000) 42 (["a"] ++ ["b"])).tokens.filter
      (fun p => p.2 = 42) = [("b", 42)] ∧
    (paintAttempt [] (issueSeq (initialState 2 2 1000) 42 (["a"] ++ ["b"]))
      "a" 42 0 0 ⟨1, 2, 3⟩ 5).2 = INVALID_TOKEN := by
  have h := c5_token_rotation_uniqueness (initialState 2 2 1000) [] 42 ["a"]
    "b" [] 0 0 ⟨1, 2, 3⟩ 5 (by unfold keysNodup; decide) (by decide)
    (by decide)
  exact ⟨h.1, h.2.2.1 "a" (by decide)⟩

/-- Engine operation: a paint attempt through the WS handler, or the token
rotation of a successful `generateToken`. -/
inductive Op where
  | paint (token : String) (uid : Nat) (x y : Int) (c : Color) (now : Int)
  | rotate (uid : Nat) (fresh : String)

/-- Effect of one operation on the manager state. -/
def applyOp (banned : List Nat) (s : PBState) : Op → PBState
  | .paint token uid x y c now => (paintAttempt banned s token uid x y c now).1
  | .rotate uid fresh => rotateToken s uid fresh

/-- A trace of operations run against the manager. -/
def runOps (banned : List Nat) (s : PBState) (ops : List Op) : PBState :=
  ops.foldl (applyOp banned) s

/-- The wall-clock time of a paint operation is positive. -/
def opTimePos : Op → Prop
  | .paint _ _ _ _ _ now => 0 < now
  | .rotate _ _ => True

/-- One operation keeps the paint delay, keeps timestamps positive, and never
moves a cooldown entry backwards. -/
theorem applyOp_entry (banned : List Nat) (s : PBState) (op : Op)
    (hD : 0 ≤ s.paintDelay) (hpos : posEntries s) (ht : opTimePos op) :
    (applyOp banned s op).paintDelay = s.paintDelay ∧
    posEntries (applyOp banned s op) ∧
    (∀ u t, mapGet s.lastPaintTime u = some t →
      ∃ t2, mapGet (applyOp banned s op).lastPaintTime u = some t2 ∧
        t ≤ t2) := by
  cases op with
  | rotate uid fresh =>
    exact ⟨rfl, hpos, fun u t h => ⟨t, h, le_refl t⟩⟩
  | paint token uid x y c now =>
    have hnow : 0 < now := ht
    have happ : applyOp banned s (Op.paint token uid x y c now) =
        (paintAttempt banned s token uid x y c now).1 := rfl
    rw [happ]
    rcases paintAttempt_cases banned s token uid x y c now with
      ⟨_, hp⟩ | ⟨_, _, hp⟩ | ⟨_, _, _, hp⟩ | ⟨_, _, hc, hp⟩
    · rw [hp]; exact ⟨rfl, hpos, fun u t h => ⟨t, h, le_refl t⟩⟩
    · rw [hp]; exact ⟨rfl, hpos, fun u t h => ⟨t, h, le_refl t⟩⟩
    · rw [hp]; exact ⟨rfl, hpos, fun u t h => ⟨t, h, le_refl t⟩⟩
    · rw [hp]
      dsimp only
      have hpre := setPixel_preserves
        { s with lastPaintTime := mapSet s.lastPaintTime uid now } x y c
      have hl4 : (setPixel { s with
          lastPaintTime := mapSet s.lastPaintTime uid now }
          x y c).1.lastPaintTime = mapSet s.lastPaintTime uid now :=
        hpre.2.2.2.2
      have hd4 : (setPixel { s with
          lastPaintTime := mapSet s.lastPaintTime uid now }
          x y c).1.paintDelay = s.paintDelay := hpre.2.2.1
      refine ⟨hd4, ?_, ?_⟩
      · intro u t h
        rw [hl4] at h
        by_cases hu : u = uid
        · rw [hu] at h
          rw [mapGet_mapSet_self] at h
          cases h
          exact hnow
        · rw [mapGet_mapSet_ne _ _ _ _ hu] at h
          exact hpos u t h
      · intro u t h
        by_cases hu : u = uid
        · refine ⟨now, ?_, ?_⟩
          · rw [hl4, hu]
            exact mapGet_mapSet_self _ _ _
          · rw [hu] at h
            unfold coolingCheck at hc
            rw [h] at hc
            simp only [decide_eq_false_iff_not, not_and, ne_eq] at hc
            have ht0 : 0 < t := hpos uid t h
            have := hc (by omega)
            omega
        · refine ⟨t, ?_, le_refl t⟩
          rw [hl4, mapGet_mapSet_ne _ _ _ _ hu]
          exact h

/-- A trace keeps the paint delay, keeps timestamps positive, and never moves
a cooldown entry backwards. -/
theorem runOps_entry (banned : List Nat) (ops : List Op) :
    ∀ s : PBState, 0 ≤ s.paintDelay → posEntries s →
      (∀ op ∈ ops, opTimePos op) →
      (runOps banned s ops).paintDelay = s.paintDelay ∧
      posEntries (runOps banned s ops) ∧
      (∀ u t, mapGet s.lastPaintTime u = some t →
        ∃ t2, mapGet (runOps banned s ops).lastPaintTime u = some t2 ∧
          t ≤ t2) := by
  induction ops with
  | nil => exact fun s _ hpos _ => ⟨rfl, hpos, fun u t h => ⟨t, h, le_refl t⟩⟩
  | cons op rest ih =>
    intro s hD hpos hops
    have h1 := applyOp_entry banned s op hD hpos
      (hops op (List.mem_cons_self op rest))
    have hstep : runOps banned s (op :: rest) =
        runOps banned (applyOp banned s op) rest := rfl
    rw [hstep]
    have h2 := ih (applyOp banned s op) (h1.1 ▸ hD) h1.2.1
      (fun o ho => hops o (List.mem_cons_of_mem _ ho))
    refine ⟨h2.1.trans h1.1, h2.2.1, ?_⟩
    intro u t h
    rcases h1.2.2 u t h with ⟨t2, ht2, hle⟩
    rcases h2.2.2 u t2 ht2 with ⟨t3, ht3, hle2⟩
    exact ⟨t3, ht3, hle.trans hle2⟩

/-- C6: the cooldown key is the uid, not the token string. First part: any two
SUCCESS outcomes for the same uid are at least `paintDelay` apart, whatever
tokens they use and whatever operations (other paints, token rotations) happen
in between. Second part: painting with a freshly rotated token within
`paintDelay` of a SUCCESS for the same uid returns COOLING. -/
theorem c6_cooldown_keyed_by_uid :
    (∀ (banned1 banned2 : List Nat) (s1 : PBState) (T1 T2 : String) (U : Nat)
      (x1 y1 x2 y2 : Int) (c1 c2 : Color) (t1 t2 : Int) (mid : List Op),
      0 ≤ s1.paintDelay → posEntries s1 → 0 < t1 →
      (∀ op ∈ mid, opTimePos op) →
      (paintAttempt banned1 s1 T1 U x1 y1 c1 t1).2 = SUCCESS →
      (paintAttempt banned2
        (runOps banned2 (paintAttempt banned1 s1 T1 U x1 y1 c1 t1).1 mid)
        T2 U x2 y2 c2 t2).2 = SUCCESS →
      s1.paintDelay ≤ t2 - t1) ∧
    (∀ (banned : List Nat) (s : PBState) (T2 : String) (U : Nat)
      (x y : Int) (c : Color) (t t2 : Int),
      keysNodup s.tokens → U ∉ banned →
      mapGet s.lastPaintTime U = some t → 0 < t → t2 - t < s.paintDelay →
      (paintAttempt banned (rotateToken s U T2) T2 U x y c t2).2 =
        COOLING) := by
  constructor
  · intro banned1 banned2 s1 T1 T2 U x1 y1 x2 y2 c1 c2 t1 t2 mid
      hD hpos h1 hops hs hs2
    rcases paintAttempt_cases banned1 s1 T1 U x1 y1 c1 t1 with
      ⟨_, hp⟩ | ⟨_, _, hp⟩ | ⟨_, _, _, hp⟩ | ⟨_, _, hc, hp⟩
    · rw [hp] at hs; simp [NO_PERMISSION, SUCCESS] at hs
    · rw [hp] at hs; simp [INVALID_TOKEN, SUCCESS] at hs
    · rw [hp] at hs; simp [COOLING, SUCCESS] at hs
    · have hpre := setPixel_preserves
        { s1 with lastPaintTime := mapSet s1.lastPaintTime U t1 } x1 y1 c1
      have hlpt2 : (paintAttempt banned1 s1 T1 U x1 y1 c1 t1).1.lastPaintTime =
          mapSet s1.lastPaintTime U t1 := by rw [hp]; exact hpre.2.2.2.2
      have hD2 : (paintAttempt banned1 s1 T1 U x1 y1 c1 t1).1.paintDelay =
          s1.paintDelay := by rw [hp]; exact hpre.2.2.1
      have hpos2 : posEntries (paintAttempt banned1 s1 T1 U x1 y1 c1 t1).1 := by
        intro u t h
        rw [hlpt2] at h
        by_cases hu : u = U
        · subst hu
          rw [mapGet_mapSet_self] at h
          cases h
          exact h1
        · rw [mapGet_mapSet_ne _ _ _ _ hu] at h
          exact hpos u t h
      have hget2 : mapGet (paintAttempt banned1 s1 T1 U x1 y1 c1
          t1).1.lastPaintTime U = some t1 := by
        rw [hlpt2]
        exact mapGet_mapSet_self _ _ _
      have hrun := runOps_entry banned2 mid
        (paintAttempt banned1 s1 T1 U x1 y1 c1 t1).1 (hD2 ▸ hD) hpos2 hops
      rcases hrun.2.2 U t1 hget2 with ⟨t3, ht3, hle⟩
      rcases paintAttempt_cases banned2
          (runOps banned2 (paintAttempt banned1 s1 T1 U x1 y1 c1 t1).1 mid)
          T2 U x2 y2 c2 t2 with
        ⟨_, hp2⟩ | ⟨_, _, hp2⟩ | ⟨_, _, _, hp2⟩ | ⟨_, _, hc2, hp2⟩
      · rw [hp2] at hs2; simp [NO_PERMISSION, SUCCESS] at hs2
      · rw [hp2] at hs2; simp [INVALID_TOKEN, SUCCESS] at hs2
      · rw [hp2] at hs2; simp [COOLING, SUCCESS] at hs2
      · unfold coolingCheck at hc2
        rw [ht3] at hc2
        simp only [decide_eq_false_iff_not, not_and, ne_eq] at hc2
        have hpos3 : 0 < t3 := hrun.2.1 U t3 ht3
        have hDr : (runOps banned2
            (paintAttempt banned1 s1 T1 U x1 y1 c1 t1).1 mid).paintDelay =
            s1.paintDelay := hrun.1.trans hD2
        have h2 := hc2 (by omega)
        rw [hDr] at h2
        omega
  · intro banned s T2 U x y c t t2 hnd hban hget ht hlt
    have hr := rotateToken_spec s U T2 hnd
    have hcool : coolingCheck (mapGet (rotateToken s U T2).lastPaintTime U)
        (rotateToken s U T2).paintDelay t2 = true := by
      have hlpt : (rotateToken s U T2).lastPaintTime = s.lastPaintTime := rfl
      have hDr : (rotateToken s U T2).paintDelay = s.paintDelay := rfl
      rw [hlpt, hDr, hget]
      unfold coolingCheck
      simp only [decide_eq_true_eq]
      omega
    rcases paintAttempt_cases banned (rotateToken s U T2) T2 U x y c t2 with
      ⟨hb, _⟩ | ⟨_, hl, _⟩ | ⟨_, _, _, hp⟩ | ⟨_, _, hc2, _⟩
    · exact absurd hb hban
    · exact absurd hr.2.2.1 hl
    · rw [hp]
    · rw [hcool] at hc2
      cases hc2

/-- Closed instance check for `c6_cooldown_keyed_by_uid`: a SUCCESS at time
10, a rotation to a new token, and the inequality for a second SUCCESS at
time 110 with delay 100; plus the COOLING outcome when painting with the
rotated token at time 50. -/
theorem c6_witness :
    (100 : Int) ≤ 110 - 10 ∧
    (paintAttempt [] (rotateToken
      { width := 2, height := 2, pixelView := List.replicate 12 170,
        tokens := [("T1", 7)], paintDelay := 100,
        lastPaintTime := [(7, 10)], dirtyFlags := List.replicate 4 false,
        dirtyList := [] } 7 "T2") "T2" 7 0 0 ⟨1, 2, 3⟩ 50).2 = COOLING := by
  constructor
  · exact (c6_cooldown_keyed_by_uid.1 [] []
      { width := 2, height := 2, pixelView := List.replicate 12 170,
        tokens := [("T1", 7)], paintDelay := 100, lastPaintTime := [],
        dirtyFlags := List.replicate 4 false, dirtyList := [] }
      "T1" "T2" 7 0 0 1 1 ⟨1, 2, 3⟩ ⟨4, 5, 6⟩ 10 110 [Op.rotate 7 "T2"]
      (by decide) (fun u t h => by simp [mapGet] at h) (by decide)
      (by
        intro op hop
        rw [List.mem_singleton] at hop
        subst hop
        exact trivial)
      (by decide) (by decide))
  · exact c6_cooldown_keyed_by_uid.2 [] _ "T2" 7 0 0 ⟨1, 2, 3⟩ 10 50
      (by unfold keysNodup; decide) (by decide) (by decide) (by decide)
      (by decide)

/-- Well-formedness of the manager state: the byte view and the flag array
have their nominal lengths and the dirty coalescer is consistent — no
duplicate entries, and an index is listed exactly when its flag is set. -/
def WF (s : PBState) : Prop :=
  s.pixelView.length = s.width * s.height * 3 ∧
  s.dirtyFlags.length = s.width * s.height ∧
  s.dirtyList.Nodup ∧
  (∀ i, i ∈ s.dirtyList ↔ getFlag s.dirtyFlags i = true)

/-- One `setPixel` call of a trace. -/
structure SetOp where
  x : Int
  y : Int
  c : Color
deriving DecidableEq, Repr

/-- A sequence of `setPixel` calls. -/
def applySets (s : PBState) (ops : List SetOp) : PBState :=
  ops.foldl (fun st op => (setPixel st op.x op.y op.c).1) s

/-- The coordinate is on a W×H board. -/
def coordInBounds (W H : Nat) (x y : Int) : Prop :=
  0 ≤ x ∧ x < (W : Int) ∧ 0 ≤ y ∧ y < (H : Int)

instance (W H : Nat) (x y : Int) : Decidable (coordInBounds W H x y) := by
  unfold coordInBounds
  infer_instance

/-- The write of a `SetOp` is on the board. -/
def inBounds (W H : Nat) (op : SetOp) : Prop :=
  coordInBounds W H op.x op.y

instance (W H : Nat) (op : SetOp) : Decidable (inBounds W H op) := by
  unfold inBounds
  infer_instance

/-- Pixel index of a write. -/
def opIndex (W : Nat) (op : SetOp) : Nat := op.y.toNat * W + op.x.toNat

/-- Color of the last write to a coordinate in a trace, if any. -/
def lastWrite (ops : List SetOp) (x y : Int) : Option Color :=
  (ops.reverse.find? (fun op => op.x = x ∧ op.y = y)).map (·.c)

theorem getFlag_set_self (l : List Bool) (i : Nat) (b : Bool)
    (h : i < l.length) : getFlag (l.set i b) i = b := by
  unfold getFlag
  rw [List.getElem?_set_self (by simpa using h)]
  rfl

theorem getFlag_set_ne (l : List Bool) (i j : Nat) (b : Bool) (h : j ≠ i) :
    getFlag (l.set i b) j = getFlag l j := by
  unfold getFlag
  rw [List.getElem?_set_ne (fun he => h he.symm)]

theorem opIndex_lt (W H : Nat) (op : SetOp) (h : inBounds W H op) :
    opIndex W op < W * H := by
  obtain ⟨hx0, hxW, hy0, hyH⟩ := h
  have hxn : op.x.toNat < W := by omega
  have hyn : op.y.toNat < H := by omega
  unfold opIndex
  calc op.y.toNat * W + op.x.toNat < op.y.toNat * W + W := by omega
    _ = (op.y.toNat + 1) * W := by ring
    _ ≤ H * W := Nat.mul_le_mul_right W hyn
    _ = W * H := Nat.mul_comm H W

theorem index_inj (W : Nat) (x1 y1 x2 y2 : Nat) (hx1 : x1 < W) (hx2 : x2 < W)
    (h : y1 * W + x1 = y2 * W + x2) : x1 = x2 ∧ y1 = y2 := by
  have hW : 0 < W := by omega
  have e1 : (x1 + y1 * W) % W = x1 := by
    rw [Nat.add_mul_mod_self_right]
    exact Nat.mod_eq_of_lt hx1
  have e2 : (x2 + y2 * W) % W = x2 := by
    rw [Nat.add_mul_mod_self_right]
    exact Nat.mod_eq_of_lt hx2
  have d1 : (x1 + y1 * W) / W = y1 := by
    rw [Nat.add_mul_div_right _ _ hW, Nat.div_eq_of_lt hx1]
    omega
  have d2 : (x2 + y2 * W) / W = y2 := by
    rw [Nat.add_mul_div_right _ _ hW, Nat.div_eq_of_lt hx2]
    omega
  have hcomm : x1 + y1 * W = x2 + y2 * W := by omega
  constructor
  · rw [← e1, ← e2, hcomm]
  · rw [← d1, ← d2, hcomm]

theorem setPixel_oob_eq (s : PBState) (x y : Int) (c : Color)
    (h : ¬coordInBounds s.width s.height x y) : setPixel s x y c = (s, false) := by
  unfold setPixel
  rw [if_pos (by unfold coordInBounds at h; omega)]

/-- Explicit form of an in-bounds `setPixel`, split on the dirty flag. -/
theorem setPixel_in_eq (s : PBState) (x y : Int) (c : Color)
    (h : coordInBounds s.width s.height x y) :
    setPixel s x y c =
      if getFlag s.dirtyFlags (y.toNat * s.width + x.toNat) then
        ({ s with pixelView := writeBytes s.pixelView
                    ((y.toNat * s.width + x.toNat) * 3) c }, true)
      else
        ({ s with
            pixelView := writeBytes s.pixelView
              ((y.toNat * s.width + x.toNat) * 3) c,
            dirtyFlags := s.dirtyFlags.set (y.toNat * s.width + x.toNat) true,
            dirtyList := s.dirtyList ++ [y.toNat * s.width + x.toNat] },
          true) := by
  unfold setPixel
  rw [if_neg (by unfold coordInBounds at h; omega)]

/-- Byte view of an in-bounds `setPixel`: the three color bytes are written at
offset `(y*width+x)*3`, whatever the dirty flag was. -/
theorem setPixel_in_pixelView (s : PBState) (x y : Int) (c : Color)
    (h : coordInBounds s.width s.height x y) :
    (setPixel s x y c).1.pixelView =
      writeBytes s.pixelView ((y.toNat * s.width + x.toNat) * 3) c := by
  rw [setPixel_in_eq s x y c h]
  by_cases hf : getFlag s.dirtyFlags (y.toNat * s.width + x.toNat)
  · rw [if_pos hf]
  · rw [if_neg hf]

/-- One `setPixel` preserves well-formedness and the dimensions; an in-bounds
write adds its pixel index to the dirty list exactly when not yet present. -/
theorem setPixel_dirty_spec (s : PBState) (x y : Int) (c : Color)
    (hwf : WF s) :
    WF (setPixel s x y c).1 ∧
    (setPixel s x y c).1.width = s.width ∧
    (setPixel s x y c).1.height = s.height ∧
    (∀ i, i ∈ (setPixel s x y c).1.dirtyList ↔
      (i ∈ s.dirtyList ∨ (inBounds s.width s.height ⟨x, y, c⟩ ∧
        i = opIndex s.width ⟨x, y, c⟩))) := by
  obtain ⟨hlen, hflen, hnd, hiff⟩ := hwf
  by_cases hb : coordInBounds s.width s.height x y
  · have hidx : opIndex s.width ⟨x, y, c⟩ = y.toNat * s.width + x.toNat := rfl
    have hltWH : y.toNat * s.width + x.toNat < s.width * s.height := by
      have := opIndex_lt s.width s.height ⟨x, y, c⟩ hb
      rwa [hidx] at this
    rw [setPixel_in_eq s x y c hb]
    by_cases hf : getFlag s.dirtyFlags (y.toNat * s.width + x.toNat)
    · rw [if_pos hf]
      dsimp only
      refine ⟨⟨?_, hflen, hnd, hiff⟩, rfl, rfl, ?_⟩
      · unfold writeBytes
        simp [hlen]
      · intro i
        constructor
        · exact fun h => Or.inl h
        · rintro (h | ⟨hin, hi⟩)
          · exact h
          · rw [hi, hidx]
            exact (hiff _).mpr hf
    · rw [if_neg hf]
      dsimp only
      have hnotmem : y.toNat * s.width + x.toNat ∉ s.dirtyList := by
        intro hmem
        exact hf ((hiff _).mp hmem)
      refine ⟨⟨?_, ?_, ?_, ?_⟩, rfl, rfl, ?_⟩
      · unfold writeBytes
        simp [hlen]
      · simp [hflen]
      · rw [List.nodup_append]
        refine ⟨hnd, List.nodup_singleton _, ?_⟩
        intro a ha hb2
        simp only [List.mem_singleton] at hb2
        subst hb2
        exact hnotmem ha
      · intro i
        by_cases hi : i = y.toNat * s.width + x.toNat
        · subst hi
          simp only [List.mem_append, List.mem_singleton]
          rw [getFlag_set_self _ _ _ (by omega)]
          simp
        · simp only [List.mem_append, List.mem_singleton]
          rw [getFlag_set_ne _ _ _ _ hi]
          rw [← hiff i]
          simp [hi]
      · intro i
        simp only [List.mem_append, List.mem_singleton]
        constructor
        · rintro (h | h)
          · exact Or.inl h
          · exact Or.inr ⟨hb, by rw [hidx]; exact h⟩
        · rintro (h | ⟨hin, hi⟩)
          · exact Or.inl h
          · exact Or.inr (by rw [hi, hidx])
  · rw [setPixel_oob_eq s x y c hb]
    refine ⟨⟨hlen, hflen, hnd, hiff⟩, rfl, rfl, ?_⟩
    intro i
    constructor
    · exact fun h => Or.inl h
    · rintro (h | ⟨hin, _⟩)
      · exact h
      · exact absurd hin hb

/-- A trace of writes preserves well-formedness and dimensions; the dirty list
collects exactly the board's previous dirty indices plus the indices of the
in-bounds writes. -/
theorem applySets_spec (ops : List SetOp) :
    ∀ s : PBState, WF s →
      WF (applySets s ops) ∧
      (applySets s ops).width = s.width ∧
      (applySets s ops).height = s.height ∧
      (∀ i, i ∈ (applySets s ops).dirtyList ↔
        (i ∈ s.dirtyList ∨ ∃ op ∈ ops, inBounds s.width s.height op ∧
          i = opIndex s.width op)) := by
  induction ops with
  | nil =>
    intro s hwf
    exact ⟨hwf, rfl, rfl, fun i => by unfold applySets; simp⟩
  | cons op rest ih =>
    intro s hwf
    have h1 := setPixel_dirty_spec s op.x op.y op.c hwf
    have hstep : applySets s (op :: rest) =
        applySets (setPixel s op.x op.y op.c).1 rest := rfl
    rw [hstep]
    have h2 := ih (setPixel s op.x op.y op.c).1 h1.1
    refine ⟨h2.1, h2.2.1.trans h1.2.1, h2.2.2.1.trans h1.2.2.1, ?_⟩
    intro i
    constructor
    · intro h
      rcases (h2.2.2.2 i).mp h with h | ⟨op', hop', hin', hi'⟩
      · rcases (h1.2.2.2 i).mp h with h | ⟨hin, hi⟩
        · exact Or.inl h
        · exact Or.inr ⟨op, List.mem_cons_self op rest, hin, hi⟩
      · rw [h1.2.1, h1.2.2.1] at hin'
        rw [h1.2.1] at hi'
        exact Or.inr ⟨op', List.mem_cons_of_mem _ hop', hin', hi'⟩
    · intro h
      apply (h2.2.2.2 i).mpr
      rcases h with h | ⟨op', hop', hin', hi'⟩
      · exact Or.inl ((h1.2.2.2 i).mpr (Or.inl h))
      · rcases List.mem_cons.mp hop' with hh | hh
        · subst hh
          exact Or.inl ((h1.2.2.2 i).mpr (Or.inr ⟨hin', hi'⟩))
        · refine Or.inr ⟨op', hh, ?_, ?_⟩
          · rw [h1.2.1, h1.2.2.1]
            exact hin'
          · rw [h1.2.1]
            exact hi'

theorem getFlag_oob (l : List Bool) (j : Nat) (h : l.length ≤ j) :
    getFlag l j = false := by
  unfold getFlag
  rw [List.getElem?_eq_none (by omega)]
  rfl

theorem getFlag_set_false_self (fs : List Bool) (i : Nat) :
    getFlag (fs.set i false) i = false := by
  by_cases h : i < fs.length
  · exact getFlag_set_self fs i false h
  · apply getFlag_oob
    rw [List.length_set]
    omega

/-- The flag-clearing loop of `flushUpdates` leaves every flag false, given
that only listed indices were set. -/
theorem clearFold_getFlag (l : List Nat) :
    ∀ fs : List Bool, (∀ j, getFlag fs j = true → j ∈ l) →
      ∀ j, getFlag (l.foldl (fun a i => a.set i false) fs) j = false := by
  induction l with
  | nil =>
    intro fs h j
    cases hg : getFlag fs j with
    | false => exact hg
    | true => exact absurd (h j hg) (List.not_mem_nil j)
  | cons i t ih =>
    intro fs h j
    have hfold : (i :: t).foldl (fun a i => a.set i false) fs =
        t.foldl (fun a i => a.set i false) (fs.set i false) := rfl
    rw [hfold]
    apply ih
    intro j2 hj2
    by_cases hij : j2 = i
    · subst hij
      rw [getFlag_set_false_self] at hj2
      cases hj2
    · rw [getFlag_set_ne _ _ _ _ hij] at hj2
      rcases List.mem_cons.mp (h j2 hj2) with hh | hh
      · exact absurd hh hij
      · exact hh

/-- Behaviour of `flushUpdates` on a well-formed state: the emitted byte
string is one record per dirty-list entry, the byte view is untouched, and
the dirty coalescer is empty afterwards. -/
theorem flushUpdates_spec (s : PBState) (hwf : WF s) :
    (flushUpdates s).2 = s.dirtyList.flatMap (record8 s) ∧
    (flushUpdates s).1.pixelView = s.pixelView ∧
    (flushUpdates s).1.dirtyList = [] ∧
    (∀ j, getFlag (flushUpdates s).1.dirtyFlags j = false) := by
  obtain ⟨hlen, hflen, hnd, hiff⟩ := hwf
  unfold flushUpdates
  by_cases hl : s.dirtyList.length > 0
  · rw [if_pos hl]
    dsimp only
    refine ⟨rfl, rfl, rfl, ?_⟩
    apply clearFold_getFlag
    intro j hj
    exact (hiff j).mpr hj
  · rw [if_neg hl]
    dsimp only
    have hnil : s.dirtyList = [] := by
      cases hs : s.dirtyList with
      | nil => rfl
      | cons a t => rw [hs] at hl; simp at hl
    refine ⟨by rw [hnil]; rfl, rfl, hnil, ?_⟩
    intro j
    cases hg : getFlag s.dirtyFlags j with
    | false => rfl
    | true =>
      have hm := (hiff j).mpr hg
      rw [hnil] at hm
      simp at hm

theorem writeBytes_read (pv : List Nat) (idx : Nat) (c : Color)
    (h : idx + 2 < pv.length) :
    (writeBytes pv idx c)[idx]? = some (c.r % 256) ∧
    (writeBytes pv idx c)[idx + 1]? = some (c.g % 256) ∧
    (writeBytes pv idx c)[idx + 2]? = some (c.b % 256) := by
  unfold writeBytes
  refine ⟨?_, ?_, ?_⟩
  · rw [List.getElem?_set_ne (by omega), List.getElem?_set_ne (by omega),
      List.getElem?_set_self (by omega)]
  · rw [List.getElem?_set_ne (by omega),
      List.getElem?_set_self (by simp only [List.length_set]; omega)]
  · rw [List.getElem?_set_self (by simp only [List.length_set]; omega)]

theorem writeBytes_read_ne (pv : List Nat) (idx j : Nat) (c : Color)
    (h : j < idx ∨ idx + 2 < j) :
    (writeBytes pv idx c)[j]? = pv[j]? := by
  unfold writeBytes
  rw [List.getElem?_set_ne (by omega), List.getElem?_set_ne (by omega),
    List.getElem?_set_ne (by omega)]

/-- Last write wins: after a trace of writes, the three snapshot bytes of an
in-bounds coordinate are those of the trace's last write to it. -/
theorem applySets_lastWrite (x y : Int) (c : Color) :
    ∀ (ops : List SetOp) (s0 : PBState), WF s0 →
      coordInBounds s0.width s0.height x y →
      lastWrite ops x y = some c →
      ((applySets s0 ops).pixelView[(y.toNat * s0.width + x.toNat) * 3]? =
          some (c.r % 256) ∧
        (applySets s0 ops).pixelView[(y.toNat * s0.width + x.toNat) * 3
          + 1]? = some (c.g % 256) ∧
        (applySets s0 ops).pixelView[(y.toNat * s0.width + x.toNat) * 3
          + 2]? = some (c.b % 256)) := by
  intro ops
  induction ops using List.reverseRecOn with
  | nil =>
    intro s0 _ _ hlw
    unfold lastWrite at hlw
    simp at hlw
  | append_singleton init op ih =>
    intro s0 hwf hin hlw
    have hfold : applySets s0 (init ++ [op]) =
        (setPixel (applySets s0 init) op.x op.y op.c).1 := by
      unfold applySets
      rw [List.foldl_append]
      rfl
    have hmid := applySets_spec init s0 hwf
    have hW : (applySets s0 init).width = s0.width := hmid.2.1
    have hH : (applySets s0 init).height = s0.height := hmid.2.2.1
    have hwfm : WF (applySets s0 init) := hmid.1
    have hplen : (applySets s0 init).pixelView.length =
        s0.width * s0.height * 3 := by
      rw [hwfm.1, hW, hH]
    rw [hfold]
    unfold lastWrite at hlw
    rw [List.reverse_append, List.reverse_singleton,
      List.singleton_append] at hlw
    by_cases hmatch : op.x = x ∧ op.y = y
    · rw [List.find?_cons_of_pos _ (by simpa using hmatch)] at hlw
      simp only [Option.map_some'] at hlw
      have hinm : coordInBounds (applySets s0 init).width
          (applySets s0 init).height op.x op.y := by
        rw [hW, hH, hmatch.1, hmatch.2]
        exact hin
      have hpv := setPixel_in_pixelView (applySets s0 init) op.x op.y op.c
        hinm
      rw [hpv]
      rw [hW, hmatch.1, hmatch.2]
      have hidxlt : (y.toNat * s0.width + x.toNat) * 3 + 2 <
          (applySets s0 init).pixelView.length := by
        rw [hplen]
        have h1 : y.toNat * s0.width + x.toNat < s0.width * s0.height :=
          opIndex_lt s0.width s0.height ⟨x, y, c⟩ hin
        omega
      have hread := writeBytes_read (applySets s0 init).pixelView
        ((y.toNat * s0.width + x.toNat) * 3) op.c hidxlt
      have hoc : op.c = c := by injection hlw
      rw [← hoc]
      exact hread
    · rw [List.find?_cons_of_neg _ (by simpa using hmatch)] at hlw
      have hihres := ih s0 hwf hin hlw
      by_cases hob : coordInBounds s0.width s0.height op.x op.y
      · have hinm : coordInBounds (applySets s0 init).width
            (applySets s0 init).height op.x op.y := by
          rw [hW, hH]
          exact hob
        have hpv := setPixel_in_pixelView (applySets s0 init) op.x op.y op.c
          hinm
        rw [hpv, hW]
        have hne : op.y.toNat * s0.width + op.x.toNat ≠
            y.toNat * s0.width + x.toNat := by
          intro he
          obtain ⟨hxe, hye⟩ := index_inj s0.width op.x.toNat op.y.toNat
            x.toNat y.toNat (by obtain ⟨_, _, _, _⟩ := hob; omega)
            (by obtain ⟨_, _, _, _⟩ := hin; omega) he
          apply hmatch
          constructor
          · have h1 : op.x = (op.x.toNat : Int) :=
              (Int.toNat_of_nonneg hob.1).symm
            have h2 : x = (x.toNat : Int) :=
              (Int.toNat_of_nonneg hin.1).symm
            rw [h1, h2, hxe]
          · have h1 : op.y = (op.y.toNat : Int) :=
              (Int.toNat_of_nonneg hob.2.2.1).symm
            have h2 : y = (y.toNat : Int) :=
              (Int.toNat_of_nonneg hin.2.2.1).symm
            rw [h1, h2, hye]
        have hsep : ∀ j, j = (y.toNat * s0.width + x.toNat) * 3 ∨
            j = (y.toNat * s0.width + x.toNat) * 3 + 1 ∨
            j = (y.toNat * s0.width + x.toNat) * 3 + 2 →
            (j < (op.y.toNat * s0.width + op.x.toNat) * 3 ∨
              (op.y.toNat * s0.width + op.x.toNat) * 3 + 2 < j) := by
          intro j hj
          omega
        refine ⟨?_, ?_, ?_⟩
        · rw [writeBytes_read_ne _ _ _ _ (hsep _ (Or.inl rfl))]
          exact hihres.1
        · rw [writeBytes_read_ne _ _ _ _ (hsep _ (Or.inr (Or.inl rfl)))]
          exact hihres.2.1
        · rw [writeBytes_read_ne _ _ _ _ (hsep _ (Or.inr (Or.inr rfl)))]
          exact hihres.2.2
      · have hoob : ¬coordInBounds (applySets s0 init).width
            (applySets s0 init).height op.x op.y := by
          rw [hW, hH]
          exact hob
        rw [setPixel_oob_eq _ _ _ _ hoob]
        exact hihres

theorem WF_initialState (W H : Nat) (d : Int) : WF (initialState W H d) := by
  unfold WF initialState
  refine ⟨by simp, by simp, List.nodup_nil, ?_⟩
  intro i
  simp only [List.not_mem_nil, false_iff]
  intro h
  unfold getFlag at h
  rw [List.getElem?_replicate] at h
  split at h <;> simp at h

/-- C4: `setPixel` returns false exactly on out-of-board coordinates and then
leaves the whole state untouched; an in-bounds call writes the three color
bytes at offset `(y*width+x)*3` and appends the pixel index to the dirty list
exactly when its flag was clear; and over any trace of writes the snapshot
bytes of an in-bounds coordinate equal the color of its last write (colors
are wire bytes, below 256). -/
theorem c4_setPixel_spec :
    (∀ (s : PBState) (x y : Int) (c : Color),
      ((setPixel s x y c).2 = false ↔
        ¬(0 ≤ x ∧ x < (s.width : Int) ∧ 0 ≤ y ∧ y < (s.height : Int))) ∧
      ((setPixel s x y c).2 = false → (setPixel s x y c).1 = s)) ∧
    (∀ (s : PBState) (x y : Int) (c : Color),
      coordInBounds s.width s.height x y →
      (setPixel s x y c).1.pixelView =
        writeBytes s.pixelView ((y.toNat * s.width + x.toNat) * 3) c ∧
      (getFlag s.dirtyFlags (y.toNat * s.width + x.toNat) = true →
        (setPixel s x y c).1.dirtyList = s.dirtyList ∧
        (setPixel s x y c).1.dirtyFlags = s.dirtyFlags) ∧
      (getFlag s.dirtyFlags (y.toNat * s.width + x.toNat) = false →
        (setPixel s x y c).1.dirtyList =
          s.dirtyList ++ [y.toNat * s.width + x.toNat] ∧
        (setPixel s x y c).1.dirtyFlags =
          s.dirtyFlags.set (y.toNat * s.width + x.toNat) true)) ∧
    (∀ (ops : List SetOp) (s0 : PBState) (x y : Int) (c : Color),
      WF s0 → coordInBounds s0.width s0.height x y →
      c.r < 256 → c.g < 256 → c.b < 256 →
      lastWrite ops x y = some c →
      (getBoardBuffer (applySets s0 ops))[(y.toNat * s0.width + x.toNat)
        * 3]? = some c.r ∧
      (getBoardBuffer (applySets s0 ops))[(y.toNat * s0.width + x.toNat)
        * 3 + 1]? = some c.g ∧
      (getBoardBuffer (applySets s0 ops))[(y.toNat * s0.width + x.toNat)
        * 3 + 2]? = some c.b) := by
  refine ⟨?_, ?_, ?_⟩
  · intro s x y c
    constructor
    · rw [setPixel_snd]
      exact decide_eq_false_iff_not
    · intro h
      have hnb : ¬coordInBounds s.width s.height x y := by
        rw [setPixel_snd] at h
        unfold coordInBounds
        simpa using h
      rw [setPixel_oob_eq s x y c hnb]
  · intro s x y c h
    refine ⟨setPixel_in_pixelView s x y c h, ?_, ?_⟩
    · intro hf
      rw [setPixel_in_eq s x y c h, if_pos hf]
      exact ⟨rfl, rfl⟩
    · intro hf
      rw [setPixel_in_eq s x y c h,
        if_neg (by rw [hf]; exact Bool.false_ne_true)]
      exact ⟨rfl, rfl⟩
  · intro ops s0 x y c hwf hin hr hg hb hlw
    have h := applySets_lastWrite x y c ops s0 hwf hin hlw
    unfold getBoardBuffer
    rw [Nat.mod_eq_of_lt hr, Nat.mod_eq_of_lt hg, Nat.mod_eq_of_lt hb] at h
    exact h

/-- Concrete write trace for the C4 and C2 instance checks: (0,0) is written
twice, its last color is (1,2,3). -/
def c4Ops : List SetOp :=
  [⟨0, 0, ⟨9, 9, 9⟩⟩, ⟨1, 0, ⟨7, 7, 7⟩⟩, ⟨0, 0, ⟨1, 2, 3⟩⟩]

/-- Closed instance check for `c4_setPixel_spec`. -/
theorem c4_witness :
    (setPixel (initialState 4 2 1000) 10 0 ⟨1, 2, 3⟩).1 =
      initialState 4 2 1000 ∧
    (getBoardBuffer (applySets (initialState 4 2 1000) c4Ops))[0]? =
      some 1 ∧
    (getBoardBuffer (applySets (initialState 4 2 1000) c4Ops))[1]? =
      some 2 := by
  refine ⟨?_, ?_, ?_⟩
  · exact (c4_setPixel_spec.1 (initialState 4 2 1000) 10 0 ⟨1, 2, 3⟩).2
      ((c4_setPixel_spec.1 (initialState 4 2 1000) 10 0 ⟨1, 2, 3⟩).1.mpr
        (by decide))
  · exact (c4_setPixel_spec.2.2 c4Ops (initialState 4 2 1000) 0 0 ⟨1, 2, 3⟩
      (WF_initialState 4 2 1000) (by decide) (by decide) (by decide)
      (by decide) (by decide)).1
  · exact (c4_setPixel_spec.2.2 c4Ops (initialState 4 2 1000) 0 0 ⟨1, 2, 3⟩
      (WF_initialState 4 2 1000) (by decide) (by decide) (by decide)
      (by decide) (by decide)).2.1

/-- C2: the tick broadcast emitted by `flushUpdates` is the concatenation of
one 8-byte 0xFA record per pixel dirtied since the previous flush — the
indices of the in-bounds writes since then, each exactly once, so a pixel
written twice appears once — each record reading the pixel's current bytes at
broadcast time; the dirty coalescer is empty immediately after. -/
theorem c2_broadcast_per_tick (s0 : PBState) (ops : List SetOp)
    (hwf : WF s0) (hclean : s0.dirtyList = []) :
    (flushUpdates (applySets s0 ops)).2 =
      (applySets s0 ops).dirtyList.flatMap (record8 (applySets s0 ops)) ∧
    (∀ i, (record8 (applySets s0 ops) i).length = 8 ∧
      (record8 (applySets s0 ops) i).take 1 = [0xfa]) ∧
    (applySets s0 ops).dirtyList.Nodup ∧
    (∀ i, i ∈ (applySets s0 ops).dirtyList ↔
      ∃ op ∈ ops, inBounds s0.width s0.height op ∧
        i = opIndex s0.width op) ∧
    (∀ i ∈ (applySets s0 ops).dirtyList,
      (record8 (applySets s0 ops) i).drop 5 =
        [getByte (applySets s0 ops).pixelView (i * 3),
          getByte (applySets s0 ops).pixelView (i * 3 + 1),
          getByte (applySets s0 ops).pixelView (i * 3 + 2)]) ∧
    (flushUpdates (applySets s0 ops)).1.dirtyList = [] ∧
    (∀ j, getFlag (flushUpdates (applySets s0 ops)).1.dirtyFlags j =
      false) := by
  have hA := applySets_spec ops s0 hwf
  have hF := flushUpdates_spec (applySets s0 ops) hA.1
  refine ⟨hF.1, ?_, hA.1.2.2.1, ?_, ?_, hF.2.2.1, hF.2.2.2⟩
  · intro i
    exact ⟨rfl, rfl⟩
  · intro i
    rw [hA.2.2.2 i, hclean]
    simp
  · intro i _
    unfold record8
    dsimp only
    have hbase : (i / (applySets s0 ops).width * (applySets s0 ops).width +
        i % (applySets s0 ops).width) * 3 = i * 3 := by
      have hdm : i / (applySets s0 ops).width * (applySets s0 ops).width +
          i % (applySets s0 ops).width = i := Nat.div_add_mod' i _
      rw [hdm]
    rw [hbase]
    rfl

/-- Closed instance check for `c2_broadcast_per_tick`. -/
theorem c2_witness :
    (flushUpdates (applySets (initialState 4 2 1000) c4Ops)).2 =
      (applySets (initialState 4 2 1000) c4Ops).dirtyList.flatMap
        (record8 (applySets (initialState 4 2 1000) c4Ops)) ∧
    (applySets (initialState 4 2 1000) c4Ops).dirtyList.Nodup ∧
    (flushUpdates (applySets (initialState 4 2 1000)
      c4Ops)).1.dirtyList = [] ∧
    (0 ∈ (applySets (initialState 4 2 1000) c4Ops).dirtyList ↔
      ∃ op ∈ c4Ops, inBounds 4 2 op ∧ 0 = opIndex 4 op) := by
  have h := c2_broadcast_per_tick (initialState 4 2 1000) c4Ops
    (WF_initialState 4 2 1000) rfl
  exact ⟨h.1, h.2.2.1, h.2.2.2.2.2.1, h.2.2.2.1 0⟩

theorem rateLimitStep_count (maxPPS : Nat) (srv : ServerState) (ip : String)
    (cr : ConnRate) (now : Int) :
    (rateLimitStep maxPPS srv ip cr now).conn.packetsReceived =
      (if now - cr.lastPacketCountReset ≥ 1000 then 0
        else cr.packetsReceived) + 1 := by
  by_cases hl : (if now - cr.lastPacketCountReset ≥ 1000 then 0
    else cr.packetsReceived) + 1 > maxPPS
  · rw [rateLimitStep_eq_limited maxPPS srv ip cr now hl]
  · rw [rateLimitStep_eq_ok maxPPS srv ip cr now hl]

/-- The decode loop over a run of well-formed 0xFE packets followed by an
arbitrary continuation: the packets are executed in sequence and the loop
continues with the remaining bytes. -/
theorem decodeLoop_paintFrame (banned : List Nat) (now : Int) :
    ∀ (payloads : List (List Nat)) (pb : PBState) (conn : ConnState)
      (tail : List Nat), (∀ p ∈ payloads, p.length = 30) →
      decodeLoop banned pb conn (paintFrame payloads ++ tail) now =
        ⟨(decodeLoop banned (procPaints banned pb payloads now).1 conn
            tail now).pb,
          (decodeLoop banned (procPaints banned pb payloads now).1 conn
            tail now).conn,
          (procPaints banned pb payloads now).2 ++
            (decodeLoop banned (procPaints banned pb payloads now).1 conn
              tail now).responses,
          (decodeLoop banned (procPaints banned pb payloads now).1 conn
            tail now).closeCode⟩ := by
  intro payloads
  induction payloads with
  | nil =>
    intro pb conn tail _
    have h1 : paintFrame [] ++ tail = tail := by
      unfold paintFrame
      simp
    have h2 : procPaints banned pb [] now = (pb, []) := rfl
    rw [h1, h2]
    simp
  | cons p rest ih =>
    intro pb conn tail hlen
    have hp : p.length = 30 := hlen p (List.mem_cons_self p rest)
    have hframe : paintFrame (p :: rest) ++ tail =
        0xfe :: (p ++ (paintFrame rest ++ tail)) := by
      unfold paintFrame
      simp
    rw [hframe]
    rw [decodeLoop]
    rw [if_neg (by decide), if_pos rfl,
      if_pos (by simp [List.length_append, hp])]
    rw [List.take_left' hp, List.drop_left' hp]
    have hproc : procPaints banned pb (p :: rest) now =
        ((procPaints banned (paintPacketStep banned pb p now).1 rest now).1,
          (paintPacketStep banned pb p now).2 ::
            (procPaints banned (paintPacketStep banned pb p now).1 rest
              now).2) := rfl
    rw [hproc]
    dsimp only
    rw [ih (paintPacketStep banned pb p now).1 conn tail
      (fun q hq => hlen q (List.mem_cons_of_mem _ hq))]
    simp

theorem procPaints_length (banned : List Nat) (now : Int) :
    ∀ (payloads : List (List Nat)) (pb : PBState),
      (procPaints banned pb payloads now).2.length = payloads.length := by
  intro payloads
  induction payloads with
  | nil => intro pb; rfl
  | cons p rest ih =>
    intro pb
    have hproc : procPaints banned pb (p :: rest) now =
        ((procPaints banned (paintPacketStep banned pb p now).1 rest now).1,
          (paintPacketStep banned pb p now).2 ::
            (procPaints banned (paintPacketStep banned pb p now).1 rest
              now).2) := rfl
    rw [hproc]
    simp [ih]

/-- C10: the rate-limit counter counts WebSocket frames, not decoded packets
— one message handler invocation increments it by exactly one whatever the
frame contains — a frame of k well-formed 0xFE packets is decoded to k
responses with no close; and a frame whose trailing 0xFE packet is truncated
below its 30-byte body closes with 1011 after the earlier packets of the same
frame have taken effect. All the functions involved are total, so the server
does not crash. -/
theorem c10_frame_counter_and_truncation :
    (∀ (maxPPS : Nat) (banned : List Nat) (srv : ServerState) (ip : String)
      (cr : ConnRate) (cs : ConnState) (pb : PBState) (bytes : List Nat)
      (now : Int),
      (handleMessage maxPPS banned srv ip cr cs pb bytes
        now).conn.packetsReceived =
        (if now - cr.lastPacketCountReset ≥ 1000 then 0
          else cr.packetsReceived) + 1) ∧
    (∀ (banned : List Nat) (pb : PBState) (cs : ConnState)
      (payloads : List (List Nat)) (now : Int),
      (∀ p ∈ payloads, p.length = 30) →
      decodeLoop banned pb cs (paintFrame payloads) now =
        ⟨(procPaints banned pb payloads now).1, cs,
          (procPaints banned pb payloads now).2, none⟩ ∧
      (procPaints banned pb payloads now).2.length = payloads.length) ∧
    (∀ (banned : List Nat) (pb : PBState) (cs : ConnState)
      (payloads : List (List Nat)) (tr : List Nat) (now : Int),
      (∀ p ∈ payloads, p.length = 30) → tr.length < 30 →
      decodeLoop banned pb cs (paintFrame payloads ++ (0xfe :: tr)) now =
        ⟨(procPaints banned pb payloads now).1, cs,
          (procPaints banned pb payloads now).2, some 1011⟩) := by
  refine ⟨?_, ?_, ?_⟩
  · intro maxPPS banned srv ip cr cs pb bytes now
    unfold handleMessage
    dsimp only
    split
    · exact rateLimitStep_count maxPPS srv ip cr now
    · exact rateLimitStep_count maxPPS srv ip cr now
  · intro banned pb cs payloads now hlen
    refine ⟨?_, procPaints_length banned now payloads pb⟩
    have h := decodeLoop_paintFrame banned now payloads pb cs [] hlen
    rw [List.append_nil] at h
    rw [h]
    have hnil : decodeLoop banned (procPaints banned pb payloads now).1 cs
        [] now = ⟨(procPaints banned pb payloads now).1, cs, [], none⟩ := by
      rw [decodeLoop]
    rw [hnil]
    simp
  · intro banned pb cs payloads tr now hlen htr
    have h := decodeLoop_paintFrame banned now payloads pb cs
      (0xfe :: tr) hlen
    rw [h]
    have htail : decodeLoop banned (procPaints banned pb payloads now).1 cs
        (0xfe :: tr) now =
        ⟨(procPaints banned pb payloads now).1, cs, [], some 1011⟩ := by
      rw [decodeLoop]
      rw [if_neg (by decide), if_pos rfl, if_neg (by omega)]
    rw [htail]
    simp

/-- Closed instance check for `c10_frame_counter_and_truncation`: a frame of
one full paint packet and one truncated packet. -/
theorem c10_witness :
    (handleMessage 100 [] ⟨[], []⟩ "ip" ⟨0, 0⟩ ⟨false⟩ (initialState 2 2 0)
      (paintFrame [List.replicate 30 0]) 500).conn.packetsReceived =
      (if (500 : Int) - 0 ≥ 1000 then 0 else 0) + 1 ∧
    decodeLoop [] (initialState 2 2 0) ⟨false⟩
      (paintFrame [List.replicate 30 0] ++ (0xfe :: [1, 2, 3])) 5 =
      ⟨(procPaints [] (initialState 2 2 0) [List.replicate 30 0] 5).1,
        ⟨false⟩, (procPaints [] (initialState 2 2 0)
          [List.replicate 30 0] 5).2, some 1011⟩ :=
  ⟨c10_frame_counter_and_truncation.1 100 [] ⟨[], []⟩ "ip" ⟨0, 0⟩ ⟨false⟩
      (initialState 2 2 0) (paintFrame [List.replicate 30 0]) 500,
    c10_frame_counter_and_truncation.2.2 [] (initialState 2 2 0) ⟨false⟩
      [List.replicate 30 0] [1, 2, 3] 5 (by decide) (by decide)⟩

/-! ### C9: loadTokens keeps one token per uid -/

/-- Prepending a row: the last row read for a uid is the last one in the tail
when the tail has one, else this row when its uid matches. -/
theorem lastRowTokenFor_cons (row : String × Nat) (rest : List (String × Nat))
    (u : Nat) :
    lastRowTokenFor (row :: rest) u =
      (lastRowTokenFor rest u).or
        (if row.2 = u then some row.1 else none) := by
  unfold lastRowTokenFor
  rw [List.reverse_cons, List.find?_append]
  cases h : rest.reverse.find? (fun r => decide (r.2 = u)) with
  | none =>
    by_cases hr : row.2 = u
    · rw [List.find?_cons_of_pos _ (by simp [hr])]
      simp [hr]
    · rw [List.find?_cons_of_neg _ (by simp [hr])]
      simp [hr]
  | some q =>
    simp

/-- First `loadTokens` loop: folding rows into the uid-keyed map keeps the
keys unique, each value's uid equal to its key, and the lookup at a uid equal
to the last row read for it (falling back to the initial map). -/
theorem uidLastToken_fold :
    ∀ (rows : List (String × Nat)) (m : List (Nat × TokenInfo)),
      keysNodup m → (∀ p ∈ m, p.2.uid = p.1) →
      keysNodup (rows.foldl (fun m row => mapSet m row.2 ⟨row.2, row.1⟩) m) ∧
      (∀ p ∈ rows.foldl (fun m row => mapSet m row.2 ⟨row.2, row.1⟩) m,
        p.2.uid = p.1) ∧
      (∀ u, mapGet (rows.foldl (fun m row => mapSet m row.2 ⟨row.2, row.1⟩) m)
          u =
        ((lastRowTokenFor rows u).map
          (fun t => (⟨u, t⟩ : TokenInfo))).or (mapGet m u)) := by
  intro rows
  induction rows with
  | nil =>
    intro m hnd hval
    refine ⟨hnd, hval, ?_⟩
    intro u
    unfold lastRowTokenFor
    simp
  | cons row rest ih =>
    intro m hnd hval
    have hv2 : ∀ p ∈ mapSet m row.2 (⟨row.2, row.1⟩ : TokenInfo),
        p.2.uid = p.1 := by
      intro p hp
      rcases mem_mapSet m row.2 _ p hp with hh | ⟨hmem, _⟩
      · rw [hh]
      · exact hval p hmem
    have h1 := ih (mapSet m row.2 ⟨row.2, row.1⟩)
      (keysNodup_mapSet m row.2 _ hnd) hv2
    refine ⟨h1.1, h1.2.1, ?_⟩
    intro u
    have hfold : (row :: rest).foldl
        (fun m row => mapSet m row.2 ⟨row.2, row.1⟩) m =
        rest.foldl (fun m row => mapSet m row.2 ⟨row.2, row.1⟩)
          (mapSet m row.2 ⟨row.2, row.1⟩) := rfl
    rw [hfold, h1.2.2 u, lastRowTokenFor_cons]
    cases hl : lastRowTokenFor rest u with
    | some t => simp
    | none =>
      by_cases hu : row.2 = u
      · subst hu
        rw [mapGet_mapSet_self]
        simp
      · rw [mapGet_mapSet_ne _ _ _ _ (fun he => hu he.symm)]
        simp [hu]

/-- `uidLastToken` holds exactly the last row read per uid, keyed by uid, with
unique keys. -/
theorem uidLastToken_spec (rows : List (String × Nat)) :
    keysNodup (uidLastToken rows) ∧
    (∀ p ∈ uidLastToken rows, p.2.uid = p.1) ∧
    (∀ u, mapGet (uidLastToken rows) u =
      (lastRowTokenFor rows u).map (fun t => (⟨u, t⟩ : TokenInfo))) := by
  have h := uidLastToken_fold rows [] (by unfold keysNodup; simp) (by simp)
  refine ⟨h.1, h.2.1, ?_⟩
  intro u
  unfold uidLastToken
  rw [h.2.2 u]
  simp [mapGet]

/-- Two entries of a map with unique keys that share a key are equal. -/
theorem mem_eq_of_keysNodup {α β : Type} (m : List (α × β)) (hnd : keysNodup m)
    (p q : α × β) (hp : p ∈ m) (hq : q ∈ m) (hk : p.1 = q.1) : p = q := by
  induction m with
  | nil => simp at hp
  | cons r t ih =>
    unfold keysNodup at hnd
    simp only [List.map_cons, List.nodup_cons] at hnd
    rcases List.mem_cons.mp hp with hh1 | hh1 <;>
      rcases List.mem_cons.mp hq with hh2 | hh2
    · rw [hh1, hh2]
    · exact absurd (List.mem_map.mpr ⟨q, hh2, show q.1 = r.1 by
        rw [← hk, hh1]⟩) hnd.1
    · exact absurd (List.mem_map.mpr ⟨p, hh1, show p.1 = r.1 by
        rw [hk, hh2]⟩) hnd.1
    · exact ih hnd.2 hh1 hh2

/-- A duplicate-free list whose elements matching a predicate are all equal
has at most one match. -/
theorem length_filter_le_one {α : Type} (l : List α) (q : α → Bool)
    (hnd : l.Nodup)
    (hall : ∀ a ∈ l, ∀ b ∈ l, q a = true → q b = true → a = b) :
    (l.filter q).length ≤ 1 := by
  cases hfl : l.filter q with
  | nil => simp
  | cons a t =>
    cases t with
    | nil => simp
    | cons b t2 =>
      exfalso
      have hfnd : (l.filter q).Nodup := hnd.filter q
      rw [hfl] at hfnd
      have ha : a ∈ l.filter q := by
        rw [hfl]
        exact List.mem_cons_self a (b :: t2)
      have hb : b ∈ l.filter q := by
        rw [hfl]
        exact List.mem_cons_of_mem a (List.mem_cons_self b t2)
      have hab : a = b := hall a (List.mem_of_mem_filter ha)
        b (List.mem_of_mem_filter hb)
        (List.of_mem_filter ha) (List.of_mem_filter hb)
      have hmem : a ∈ b :: t2 := by
        rw [hab]
        exact List.mem_cons_self b t2
      exact (List.nodup_cons.mp hfnd).1 hmem

/-- Second `loadTokens` loop: folding values into the token-keyed map keeps
keys unique and every entry keyed by its value's token, with values drawn
from the folded list or the initial map. -/
theorem loadTokens_fold2 (P : TokenInfo → Prop) :
    ∀ (vals : List TokenInfo) (acc : List (String × TokenInfo)),
      keysNodup acc → (∀ p ∈ acc, p.1 = p.2.token ∧ P p.2) →
      (∀ v ∈ vals, P v) →
      keysNodup (vals.foldl (fun m t => mapSet m t.token t) acc) ∧
      (∀ p ∈ vals.foldl (fun m t => mapSet m t.token t) acc,
        p.1 = p.2.token ∧ P p.2) := by
  intro vals
  induction vals with
  | nil =>
    intro acc h1 h2 _
    exact ⟨h1, h2⟩
  | cons v rest ih =>
    intro acc h1 h2 h3
    have hstep : (v :: rest).foldl (fun m t => mapSet m t.token t) acc =
        rest.foldl (fun m t => mapSet m t.token t) (mapSet acc v.token v) :=
      rfl
    rw [hstep]
    apply ih
    · exact keysNodup_mapSet acc v.token v h1
    · intro p hp
      rcases mem_mapSet acc v.token v p hp with hh | ⟨hmem, _⟩
      · rw [hh]
        exact ⟨rfl, h3 v (List.mem_cons_self v rest)⟩
      · exact h2 p hmem
    · intro w hw
      exact h3 w (List.mem_cons_of_mem v hw)

/-- Every value of `uidLastToken` records the last row read for its uid. -/
theorem uidLastToken_val (rows : List (String × Nat)) (v : TokenInfo)
    (hv : v ∈ (uidLastToken rows).map (·.2)) :
    lastRowTokenFor rows v.uid = some v.token := by
  rcases List.mem_map.mp hv with ⟨p, hp, hpv⟩
  have hpv2 : p.2 = v := hpv
  have hget : mapGet (uidLastToken rows) p.1 = some p.2 :=
    mapGet_of_mem_nodup (uidLastToken rows) p.1 p.2 hp
      (uidLastToken_spec rows).1
  rw [(uidLastToken_spec rows).2.2 p.1] at hget
  cases hlw : lastRowTokenFor rows p.1 with
  | none =>
    rw [hlw] at hget
    simp at hget
  | some t =>
    rw [hlw] at hget
    have h2 : (⟨p.1, t⟩ : TokenInfo) = p.2 :=
      Option.some.inj (hget : some (⟨p.1, t⟩ : TokenInfo) = some p.2)
    rw [← hpv2, ← h2]
    exact hlw

/-- Two values of `uidLastToken` with the same uid are the same value. -/
theorem uidLastToken_val_inj (rows : List (String × Nat)) (v w : TokenInfo)
    (hv : v ∈ (uidLastToken rows).map (·.2))
    (hw : w ∈ (uidLastToken rows).map (·.2)) (he : v.uid = w.uid) : v = w := by
  rcases List.mem_map.mp hv with ⟨p, hp, hpv⟩
  rcases List.mem_map.mp hw with ⟨q, hq, hqw⟩
  have hpv2 : p.2 = v := hpv
  have hqw2 : q.2 = w := hqw
  have hk1 : p.2.uid = p.1 := (uidLastToken_spec rows).2.1 p hp
  have hk2 : q.2.uid = q.1 := (uidLastToken_spec rows).2.1 q hq
  have hkeq : p.1 = q.1 := by
    rw [← hk1, ← hk2, hpv2, hqw2, he]
  have hpq : p = q :=
    mem_eq_of_keysNodup (uidLastToken rows) (uidLastToken_spec rows).1
      p q hp hq hkeq
  rw [← hpv2, ← hqw2, hpq]

/-- C9: for any list of `(token, uid)` rows read from the `tokens` table,
the map returned by `loadTokens` holds at most one entry per uid — only the
last row read for each uid is kept — and every entry is keyed by its token
and carries the last row read for its uid, so registry uid-uniqueness holds
right after startup load even when the table contains duplicate uids. -/
theorem c9_loadTokens_uid_unique (rows : List (String × Nat)) :
    (∀ u, ((loadTokens rows).filter (fun p => p.2.uid = u)).length ≤ 1) ∧
    (∀ p ∈ loadTokens rows, p.1 = p.2.token ∧
      lastRowTokenFor rows p.2.uid = some p.2.token) := by
  have hfold := loadTokens_fold2
    (fun v => v ∈ (uidLastToken rows).map (·.2))
    ((uidLastToken rows).map (·.2)) []
    (by unfold keysNodup; simp)
    (by simp)
    (fun v hv => hv)
  have hknd : keysNodup (loadTokens rows) := hfold.1
  have hmem : ∀ p ∈ loadTokens rows,
      p.1 = p.2.token ∧ p.2 ∈ (uidLastToken rows).map (·.2) := hfold.2
  constructor
  · intro u
    apply length_filter_le_one
    · have hknd2 : ((loadTokens rows).map (fun p => p.1)).Nodup := hknd
      exact List.Nodup.of_map (fun p => p.1) hknd2
    · intro a ha b hb hqa hqb
      have ha2 := hmem a ha
      have hb2 := hmem b hb
      have hau : a.2.uid = u := of_decide_eq_true hqa
      have hbu : b.2.uid = u := of_decide_eq_true hqb
      have hveq : a.2 = b.2 := uidLastToken_val_inj rows a.2 b.2 ha2.2 hb2.2
        (by rw [hau, hbu])
      have hkeq : a.1 = b.1 := by
        rw [ha2.1, hb2.1, hveq]
      exact mem_eq_of_keysNodup (loadTokens rows) hknd a b ha hb hkeq
  · intro p hp
    exact ⟨(hmem p hp).1, uidLastToken_val rows p.2 (hmem p hp).2⟩

/-- Closed instance check for `c9_loadTokens_uid_unique`: three rows with a
duplicated uid load into a map with one entry for that uid, carrying the last
row read. -/
theorem c9_witness :
    ((loadTokens [("a", 1), ("b", 1), ("c", 2)]).filter
      (fun p => p.2.uid = 1)).length ≤ 1 ∧
    (("b", (⟨1, "b"⟩ : TokenInfo)).1 = ("b", (⟨1, "b"⟩ : TokenInfo)).2.token ∧
      lastRowTokenFor [("a", 1), ("b", 1), ("c", 2)] 1 = some "b") := by
  refine ⟨(c9_loadTokens_uid_unique [("a", 1), ("b", 1), ("c", 2)]).1 1, ?_⟩
  have h := (c9_loadTokens_uid_unique [("a", 1), ("b", 1), ("c", 2)]).2
    (("b", (⟨1, "b"⟩ : TokenInfo))) (by decide)
  exact ⟨h.1, h.2⟩

end IkaPaintboard
